import Mathlib

/-!
Verification of the SPMI bus-controller layer and the HPM device layer
(`proxyclient/m1n1/hw/spmi.py` and `proxyclient/experiments/hpm_spmi.py`).

The development has two parts:

* a frame-level model of `SPMI.raw_command` and its `write_zero` wrapper:
  the receive FIFO is modelled as the list of 32-bit words the device has
  queued (the first word is the reply word), and the transmit side is
  returned as the list of 32-bit words written to the CMD register;

* a device-operation-level model of the `HpmSPMI` methods (`select`,
  `get_size`, `read`, `write`, `command`, `wakeup`, `read_events`): the
  peripheral is an abstract state machine supplying the results of the
  SPMI wrapper commands, and each method returns its result, the final
  device state, and the trace of SPMI commands it issued.

Machine integers are `Nat` with explicit `% 2 ^ w`; bit ranges of the
32-bit registers are translated to arithmetic on `Nat`.
-/

namespace Spmi

/-- Field values of the `R_CMD` 32-bit register:
EXTRA = bits 31..16, ACTIVE = bit 15, SLAVE_ID = bits 14..8, CMD = bits 7..0. -/
structure R_CMD where
  EXTRA : Nat
  ACTIVE : Bool
  SLAVE_ID : Nat
  CMD : Nat
  deriving DecidableEq, Repr

/-- Pack `R_CMD` fields into a 32-bit word.  Each field is masked to its
width and shifted to its bit range (written arithmetically: the fields are
disjoint, so the bitwise ors of the source are sums). -/
def R_CMD.encode (r : R_CMD) : Nat :=
  r.EXTRA % 65536 * 65536 + (cond r.ACTIVE 32768 0) + r.SLAVE_ID % 128 * 256 + r.CMD % 256

/-- Extract the `R_CMD` fields from a 32-bit word. -/
def R_CMD.decode (w : Nat) : R_CMD :=
  ⟨w / 65536 % 65536, decide (w / 32768 % 2 = 1), w / 256 % 128, w % 256⟩

/-- Field values of the `R_REPLY` 32-bit register:
FRAME_PARITY = bits 31..16, ACK = bit 15, SLAVE_ID = bits 14..8, CMD = bits 7..0. -/
structure R_REPLY where
  FRAME_PARITY : Nat
  ACK : Bool
  SLAVE_ID : Nat
  CMD : Nat
  deriving DecidableEq, Repr

/-- Pack `R_REPLY` fields into a 32-bit word. -/
def R_REPLY.encode (r : R_REPLY) : Nat :=
  r.FRAME_PARITY % 65536 * 65536 + (cond r.ACK 32768 0) + r.SLAVE_ID % 128 * 256 + r.CMD % 256

/-- Extract the `R_REPLY` fields from a 32-bit word. -/
def R_REPLY.decode (w : Nat) : R_REPLY :=
  ⟨w / 65536 % 65536, decide (w / 32768 % 2 = 1), w / 256 % 128, w % 256⟩

/-- Errors raised by `raw_command` (the error taxonomy of the spec; the
source raises `assert`/`Exception`, distinguished here by site). -/
inductive SpmiErr where
  | AssertRange
  | Timeout
  | ProtocolMismatch
  | FrameParity
  | Padding
  deriving DecidableEq, Repr

/-- The four little-endian bytes of a 32-bit word (`struct.pack("<I", w)`). -/
def wordBytes (w : Nat) : List Nat :=
  [w % 256, w / 256 % 256, w / 65536 % 256, w / 16777216 % 256]

/-- `struct.unpack("<I", blk)[0]` for a list of bytes. -/
def leWord : List Nat → Nat
  | [] => 0
  | b :: rest => b + 256 * leWord rest

/-- The sequence of 32-bit payload words sent by the
`while data: blk = (data[:4] + b"\0\0\0")[:4]` loop of `raw_command`:
4-byte little-endian chunks, the last one zero-padded. -/
def dataWords : List Nat → List Nat
  | [] => []
  | [b0] => [leWord [b0, 0, 0, 0]]
  | [b0, b1] => [leWord [b0, b1, 0, 0]]
  | [b0, b1, b2] => [leWord [b0, b1, b2, 0]]
  | b0 :: b1 :: b2 :: b3 :: rest => leWord [b0, b1, b2, b3] :: dataWords rest

/-- The `left = size; while left > 0: buf += struct.pack("<I", self.raw_read()); left -= 4`
loop of `raw_command`: pop words from the RX queue and append their bytes
until `left` bytes have been covered.  Returns the buffer and the unread
remainder of the queue; an empty queue is the `raw_read` timeout. -/
def pullBuf (left : Nat) (queue : List Nat) : Except SpmiErr (List Nat × List Nat) :=
  if left = 0 then .ok ([], queue)
  else
    match queue with
    | [] => .error .Timeout
    | w :: rest =>
      match pullBuf (left - 4) rest with
      | .error e => .error e
      | .ok (bs, q) => .ok (wordBytes w ++ bs, q)
termination_by left
decreasing_by omega

/-- `SPMI.raw_command(slave, cmd, extra, data, size, active)`.
`queue` is the content of the RX FIFO produced by the device in response
(first word = reply word).  The first component is the returned
`(reply.ACK, buf[:size])` or the error; the second component is the list
of 32-bit words the call wrote to the CMD register (the frames sent). -/
def raw_command (slave cmd extra : Nat) (data : List Nat) (size : Nat) (active : Bool)
    (queue : List Nat) : Except SpmiErr (Bool × List Nat) × List Nat :=
  if slave < 16 ∧ cmd < 256 ∧ extra < 65536 then
    let tx := R_CMD.encode ⟨extra, active, slave, cmd⟩ :: dataWords data
    match queue with
    | [] => (.error .Timeout, tx)
    | w :: rest =>
      let reply := R_REPLY.decode w
      if reply.SLAVE_ID = slave ∧ reply.CMD = cmd then
        if reply.FRAME_PARITY = 2 ^ size - 1 then
          match pullBuf size rest with
          | .error e => (.error e, tx)
          | .ok (buf, _) =>
            if (buf.drop size).all (fun b => b = 0) then
              (.ok (reply.ACK, buf.take size), tx)
            else (.error .Padding, tx)
        else (.error .FrameParity, tx)
      else (.error .ProtocolMismatch, tx)
  else (.error .AssertRange, [])

/-- `SPMI.write_zero(slave, value)`: assert `0 <= value < 0x80`, then issue
`raw_command(slave, CMD_ZERO_WRITE | value, value << 8)` and return the ACK. -/
def write_zero (slave value : Nat) (queue : List Nat) : Except SpmiErr Bool × List Nat :=
  if value < 0x80 then
    match raw_command slave (0x80 ||| value) (value <<< 8) [] 0 true queue with
    | (.error e, tx) => (.error e, tx)
    | (.ok (ack, _), tx) => (.ok ack, tx)
  else (.error .AssertRange, [])

end Spmi

/-! ### Auxiliary lemmas about the frame-level model -/

/-- The data-pulling loop of `raw_command` fails only by timing out. -/
theorem pullBuf_error_timeout : ∀ (left : Nat) (q : List Nat) (e : Spmi.SpmiErr),
    Spmi.pullBuf left q = .error e → e = .Timeout := by
  intro left
  induction left using Nat.strong_induction_on with
  | _ left IH =>
    intro q e h
    rw [Spmi.pullBuf.eq_def] at h
    split at h
    · simp at h
    · split at h
      · simp only [Except.error.injEq] at h
        exact h.symm
      · split at h
        · next e2 hp =>
            simp only [Except.error.injEq] at h
            subst h
            exact IH (left - 4) (by omega) _ e2 hp
        · simp at h

/-- When the queue holds at least `⌈left/4⌉` words, the data-pulling loop of
`raw_command` consumes exactly that many words and returns their
little-endian bytes in order. -/
theorem pullBuf_complete : ∀ (left : Nat) (q : List Nat), (left + 3) / 4 ≤ q.length →
    Spmi.pullBuf left q =
      .ok (((q.take ((left + 3) / 4)).map Spmi.wordBytes).flatten, q.drop ((left + 3) / 4)) := by
  intro left
  induction left using Nat.strong_induction_on with
  | _ left IH =>
    intro q hq
    rw [Spmi.pullBuf.eq_def]
    by_cases h0 : left = 0
    · subst h0
      simp
    · rw [if_neg h0]
      cases q with
      | nil =>
        simp only [List.length_nil] at hq
        omega
      | cons w rest =>
        have hr : (left - 4 + 3) / 4 ≤ rest.length := by
          simp only [List.length_cons] at hq
          omega
        have h4 : (left + 3) / 4 = (left - 4 + 3) / 4 + 1 := by omega
        simp [IH (left - 4) (by omega) rest hr, h4]

/-! ### C9: command/reply word encode and decode are exact inverses -/

/-- C9: for all field values in their valid ranges, decoding the encoding of
a `R_CMD` or `R_REPLY` word returns the original fields, and encoding the
decoding of any 32-bit word returns the word. -/
theorem register_word_codec_inverse :
    (∀ (e s c : Nat) (a : Bool), e < 65536 → s < 128 → c < 256 →
      Spmi.R_CMD.decode (Spmi.R_CMD.encode ⟨e, a, s, c⟩) = ⟨e, a, s, c⟩ ∧
      Spmi.R_REPLY.decode (Spmi.R_REPLY.encode ⟨e, a, s, c⟩) = ⟨e, a, s, c⟩) ∧
    (∀ w : Nat, w < 4294967296 →
      Spmi.R_CMD.encode (Spmi.R_CMD.decode w) = w ∧
      Spmi.R_REPLY.encode (Spmi.R_REPLY.decode w) = w) := by
  constructor
  · intro e s c a he hs hc
    constructor
    · simp only [Spmi.R_CMD.encode, Spmi.R_CMD.decode, Spmi.R_CMD.mk.injEq]
      cases a <;> simp only [cond_true, cond_false]
      · refine ⟨by omega, ?_, by omega, by omega⟩
        rw [decide_eq_false_iff_not]
        omega
      · refine ⟨by omega, ?_, by omega, by omega⟩
        rw [decide_eq_true_eq]
        omega
    · simp only [Spmi.R_REPLY.encode, Spmi.R_REPLY.decode, Spmi.R_REPLY.mk.injEq]
      cases a <;> simp only [cond_true, cond_false]
      · refine ⟨by omega, ?_, by omega, by omega⟩
        rw [decide_eq_false_iff_not]
        omega
      · refine ⟨by omega, ?_, by omega, by omega⟩
        rw [decide_eq_true_eq]
        omega
  · intro w hw
    constructor
    · simp only [Spmi.R_CMD.encode, Spmi.R_CMD.decode]
      by_cases hb : w / 32768 % 2 = 1 <;> simp only [hb, decide_True, decide_False,
        cond_true, cond_false] <;> omega
    · simp only [Spmi.R_REPLY.encode, Spmi.R_REPLY.decode]
      by_cases hb : w / 32768 % 2 = 1 <;> simp only [hb, decide_True, decide_False,
        cond_true, cond_false] <;> omega

/-- Witness for C9 at concrete field values and a concrete word. -/
theorem register_word_codec_inverse_witness :
    Spmi.R_CMD.decode (Spmi.R_CMD.encode ⟨513, true, 5, 27⟩) = ⟨513, true, 5, 27⟩ ∧
    Spmi.R_REPLY.encode (Spmi.R_REPLY.decode 3735928559) = 3735928559 :=
  ⟨(register_word_codec_inverse.1 513 5 27 true (by decide) (by decide) (by decide)).1,
   (register_word_codec_inverse.2 3735928559 (by decide)).2⟩

/-! ### C2: the frame-parity check of `raw_command` -/

/-- Counterexample to C2: for `expected_size = 4` the claimed per-frame mask
`(1 << ceil(4/4)) - 1 = 1` is exactly the FRAME_PARITY carried by the reply
word `65536`, and the identity fields match, yet `raw_command` fails with
the frame-parity error: the source compares FRAME_PARITY against
`(1 << size) - 1` with `size` counted in bytes, not frames. -/
theorem frame_parity_mask_counterexample :
    (Spmi.raw_command 0 0 0 [] 4 true [65536, 0]).fst = .error .FrameParity ∧
    (Spmi.R_REPLY.decode 65536).FRAME_PARITY = 2 ^ ((4 + 3) / 4) - 1 ∧
    (Spmi.R_REPLY.decode 65536).SLAVE_ID = 0 ∧
    (Spmi.R_REPLY.decode 65536).CMD = 0 := by
  refine ⟨?_, by decide, by decide, by decide⟩
  simp [Spmi.raw_command, Spmi.R_REPLY.decode]

/-- C2 (amended): after the identity check, `raw_command` fails with the
frame-parity error iff the reply's FRAME_PARITY differs from
`(1 << expected_size) - 1` — one parity bit per expected payload **byte**
(the source checks `(1 << size) - 1` with `size` in bytes, and pulls
`ceil(size/4)` words afterwards). -/
theorem frame_parity_check (slave cmd extra : Nat) (data : List Nat) (size : Nat)
    (active : Bool) (w : Nat) (rest : List Nat)
    (hr : slave < 16 ∧ cmd < 256 ∧ extra < 65536)
    (hid : (Spmi.R_REPLY.decode w).SLAVE_ID = slave ∧ (Spmi.R_REPLY.decode w).CMD = cmd) :
    ((Spmi.raw_command slave cmd extra data size active (w :: rest)).fst =
        .error .FrameParity ↔
      (Spmi.R_REPLY.decode w).FRAME_PARITY ≠ 2 ^ size - 1) := by
  simp only [Spmi.raw_command, if_pos hr, if_pos hid]
  by_cases hp : (Spmi.R_REPLY.decode w).FRAME_PARITY = 2 ^ size - 1
  · rw [if_pos hp]
    simp only [hp, ne_eq, not_true_eq_false, iff_false]
    cases hq : Spmi.pullBuf size rest with
    | error e =>
      have := pullBuf_error_timeout size rest e hq
      subst this
      simp
    | ok p =>
      obtain ⟨buf, q2⟩ := p
      by_cases hz : (buf.drop size).all (fun b => b = 0) <;> simp [hz]
  · rw [if_neg hp]
    simp [hp]

/-- Witness for C2 (amended) at a concrete reply word whose parity field
(1) differs from the byte mask `(1 << 4) - 1`. -/
theorem frame_parity_check_witness :
    ((Spmi.raw_command 0 0 0 [] 4 true [65536, 0]).fst = .error .FrameParity ↔
      (Spmi.R_REPLY.decode 65536).FRAME_PARITY ≠ 2 ^ 4 - 1) :=
  frame_parity_check 0 0 0 [] 4 true 65536 [0] (by decide) (by decide)

/-! ### C5: the data phase of `raw_command` -/

/-- C5: once the identity and parity checks have passed, `raw_command`
pulls exactly `⌈size/4⌉` further words from the queue, concatenates their
little-endian bytes, fails with the padding error iff a byte at an index
`≥ size` is non-zero, and otherwise returns the ACK bit with exactly the
first `size` bytes. -/
theorem raw_command_data_phase (slave cmd extra size : Nat) (data : List Nat)
    (active : Bool) (w : Nat) (rest : List Nat)
    (hr : slave < 16 ∧ cmd < 256 ∧ extra < 65536)
    (hid : (Spmi.R_REPLY.decode w).SLAVE_ID = slave ∧ (Spmi.R_REPLY.decode w).CMD = cmd)
    (hp : (Spmi.R_REPLY.decode w).FRAME_PARITY = 2 ^ size - 1)
    (hq : (size + 3) / 4 ≤ rest.length) :
    (Spmi.raw_command slave cmd extra data size active (w :: rest)).fst =
      (let buf := ((rest.take ((size + 3) / 4)).map Spmi.wordBytes).flatten
       if (buf.drop size).all (fun b => b = 0) then
         .ok ((Spmi.R_REPLY.decode w).ACK, buf.take size)
       else .error .Padding) := by
  simp only [Spmi.raw_command, if_pos hr, if_pos hid, if_pos hp,
    pullBuf_complete size rest hq]
  split <;> rfl

/-- Witness for C5: `size = 5` pulls two words `[258, 3]`; the three
trailing bytes of the 8-byte buffer are zero, so the call returns the
first 5 bytes. -/
theorem raw_command_data_phase_witness :
    (Spmi.raw_command 0 0 0 [] 5 true [2031616, 258, 3]).fst =
      (let buf := (([258, 3].take ((5 + 3) / 4)).map Spmi.wordBytes).flatten
       if (buf.drop 5).all (fun b => b = 0) then
         .ok ((Spmi.R_REPLY.decode 2031616).ACK, buf.take 5)
       else .error .Padding) :=
  raw_command_data_phase 0 0 0 5 [] true 2031616 [258, 3] (by decide) (by decide)
    (by decide) (by decide)

namespace Hpm

/-- Errors raised by the `HpmSPMI` methods (the spec's taxonomy; the source
raises `assert`/`Exception`, distinguished here by site).  `PollExhausted`
is a modelling artifact: the busy-poll loops of the embedding carry an
explicit fuel bound, and exhausting it stands for non-termination. -/
inductive HpmErr where
  | AssertRange
  | AckFail
  | Selection
  | SizeOverflow
  | SizeMismatch
  | WakeupTimeout
  | InvalidCommand
  | ProtocolMismatch
  | PollExhausted
  deriving DecidableEq, Repr

/-- One SPMI command issued by the device layer (the trace alphabet). -/
inductive Ev where
  | wakeupCmd
  | writeZero (value : Nat)
  | readReg (reg : Nat)
  | readExt (reg size : Nat)
  | writeExt (reg : Nat) (data : List Nat)
  deriving DecidableEq, Repr

/-- The HPM peripheral as seen through the SPMI wrapper commands: a state
machine answering each command.  `read_ext` must answer with exactly `size`
bytes, as the frame layer always does (`raw_command` returns `buf[:size]`
out of a buffer of `4⌈size/4⌉ ≥ size` bytes). -/
structure SpmiOps (σ : Type) where
  wakeup : σ → Bool × σ
  write_zero : Nat → σ → Bool × σ
  read_reg : Nat → σ → Nat × σ
  read_ext : (reg size : Nat) → σ → { l : List Nat // l.length = size } × σ
  write_ext : Nat → List Nat → σ → Bool × σ

variable {σ : Type}

/-- Result of a device-layer method: outcome, final device state, and the
trace of SPMI commands issued (in order). -/
abbrev Res (σ α : Type) := Except HpmErr α × σ × List Ev

/-- Sequencing: run `x`; on success feed its value and state to `f`,
concatenating the traces; an error aborts. -/
def mbind {α β : Type} (x : Res σ α) (f : α → σ → Res σ β) : Res σ β :=
  match x with
  | (.error e, s, t) => (.error e, s, t)
  | (.ok a, s, t) =>
    match f a s with
    | (r, s2, t2) => (r, s2, t ++ t2)

/-- Return a value without device interaction. -/
def mok {α : Type} (a : α) (s : σ) : Res σ α := (.ok a, s, [])

/-- Raise an error without device interaction. -/
def mfail {α : Type} (e : HpmErr) (s : σ) : Res σ α := (.error e, s, [])

/-- `SPMI.wakeup(slave)` as seen by the device layer. -/
def spmiWakeup (ops : SpmiOps σ) (s : σ) : Res σ Bool :=
  match ops.wakeup s with
  | (r, s2) => (.ok r, s2, [.wakeupCmd])

/-- `SPMI.write_zero(slave, value)`: `assert 0 <= value < 0x80`, then issue
the command and return its ACK. -/
def spmiWriteZero (ops : SpmiOps σ) (value : Nat) (s : σ) : Res σ Bool :=
  if value < 0x80 then
    match ops.write_zero value s with
    | (r, s2) => (.ok r, s2, [.writeZero value])
  else (.error .AssertRange, s, [])

/-- `SPMI.read_reg(slave, reg)`: `assert 0 <= reg < 32`, then issue the
command and return the byte. -/
def spmiReadReg (ops : SpmiOps σ) (reg : Nat) (s : σ) : Res σ Nat :=
  if reg < 32 then
    match ops.read_reg reg s with
    | (r, s2) => (.ok r, s2, [.readReg reg])
  else (.error .AssertRange, s, [])

/-- `SPMI.read_ext(slave, reg, size)`: `assert 1 <= size <= 16 and 0 <= reg < 0x100`,
then issue the command and return the bytes. -/
def spmiReadExt (ops : SpmiOps σ) (reg size : Nat) (s : σ) : Res σ (List Nat) :=
  if 1 ≤ size ∧ size ≤ 16 ∧ reg < 0x100 then
    match ops.read_ext reg size s with
    | (r, s2) => (.ok r.val, s2, [.readExt reg size])
  else (.error .AssertRange, s, [])

/-- `SPMI.write_ext(slave, reg, data)`: `assert 1 <= len(data) <= 16 and 0 <= reg < 0x100`,
then issue the command and return its ACK. -/
def spmiWriteExt (ops : SpmiOps σ) (reg : Nat) (data : List Nat) (s : σ) : Res σ Bool :=
  if 1 ≤ data.length ∧ data.length ≤ 16 ∧ reg < 0x100 then
    match ops.write_ext reg data s with
    | (r, s2) => (.ok r, s2, [.writeExt reg data])
  else (.error .AssertRange, s, [])

/-- `HpmSPMI.select(reg)`: `write_zero(reg)`, assert the ACK, `read_reg(0)`,
and fail unless the read echoes `reg`. -/
def select (ops : SpmiOps σ) (reg : Nat) (s : σ) : Res σ Unit :=
  mbind (spmiWriteZero ops reg s) fun reply s =>
    if reply then
      mbind (spmiReadReg ops 0 s) fun reg_read s =>
        if reg_read = reg then mok () s else mfail .Selection s
    else mfail .AckFail s

/-- `HpmSPMI.get_size(reg)`: `select(reg)`, then `read_reg(0x1F)`;
`assert size <= 64`. -/
def get_size (ops : SpmiOps σ) (reg : Nat) (s : σ) : Res σ Nat :=
  mbind (select ops reg s) fun _ s =>
    mbind (spmiReadReg ops 0x1F s) fun size s =>
      if size ≤ 64 then mok size s else mfail .SizeOverflow s

/-- The `while len(data) < size: data += read_ext(0x20 + len(data), min(size - len(data), 16))`
loop of `HpmSPMI.read`. -/
def readChunks (ops : SpmiOps σ) (size : Nat) (data : List Nat) (s : σ) : Res σ (List Nat) :=
  if data.length < size then
    let n := min (size - data.length) 16
    if 1 ≤ n ∧ n ≤ 16 ∧ 0x20 + data.length < 0x100 then
      match ops.read_ext (0x20 + data.length) n s with
      | (⟨c, hc⟩, s2) =>
        match readChunks ops size (data ++ c) s2 with
        | (r, s3, t) => (r, s3, .readExt (0x20 + data.length) n :: t)
    else (.error .AssertRange, s, [])
  else mok data s
termination_by size - data.length
decreasing_by simp only [List.length_append, hc]; omega

/-- `HpmSPMI.read(reg, size)`: resolve the capacity via `get_size`; the
source's `size=-1` default is modelled as `none`; `assert size <= exp_size`,
then accumulate chunks. -/
def read (ops : SpmiOps σ) (reg : Nat) (sizeArg : Option Nat) (s : σ) : Res σ (List Nat) :=
  mbind (get_size ops reg s) fun exp_size s =>
    let size := sizeArg.getD exp_size
    if size ≤ exp_size then readChunks ops size [] s
    else mfail .SizeMismatch s

/-- The `while written < len(data)` loop of `HpmSPMI.write`: write chunks of
at most 16 bytes at `0xA0 + written`, asserting each ACK. -/
def writeChunks (ops : SpmiOps σ) (data : List Nat) (written : Nat) (s : σ) : Res σ Unit :=
  if written < data.length then
    let to_write := min (data.length - written) 16
    let chunk := (data.drop written).take to_write
    if 1 ≤ chunk.length ∧ chunk.length ≤ 16 ∧ 0xA0 + written < 0x100 then
      match ops.write_ext (0xA0 + written) chunk s with
      | (reply, s2) =>
        if reply then
          match writeChunks ops data (written + to_write) s2 with
          | (r, s3, t) => (r, s3, .writeExt (0xA0 + written) chunk :: t)
        else (.error .AckFail, s2, [.writeExt (0xA0 + written) chunk])
    else (.error .AssertRange, s, [])
  else mok () s
termination_by data.length - written
decreasing_by omega

/-- `HpmSPMI.write(reg, data)`: resolve the capacity via `get_size`;
`assert len(data) <= size`; write the chunks; `select(reg)` again to issue
the write. -/
def write (ops : SpmiOps σ) (reg : Nat) (data : List Nat) (s : σ) : Res σ Unit :=
  mbind (get_size ops reg s) fun size s =>
    if data.length ≤ size then
      mbind (writeChunks ops data 0 s) fun _ s =>
        select ops reg s
    else mfail .SizeMismatch s

/-- The `for i in range(10)` retry loop of `HpmSPMI.wakeup`: `write_zero(3)`,
assert the ACK, `read_reg(0)`, done on reading 3; `WakeupTimeout` when the
attempts are exhausted. -/
def wakeupLoop (ops : SpmiOps σ) : Nat → σ → Res σ Unit
  | 0, s => (.error .WakeupTimeout, s, [])
  | n + 1, s =>
    mbind (spmiWriteZero ops 3 s) fun reply s =>
      if reply then
        mbind (spmiReadReg ops 0 s) fun reg_read s =>
          if reg_read = 3 then mok () s else wakeupLoop ops n s
      else mfail .AckFail s

/-- `HpmSPMI.wakeup()`: issue the wakeup command, assert the ACK, then retry
up to 10 times. -/
def wakeup (ops : SpmiOps σ) (s : σ) : Res σ Unit :=
  mbind (spmiWakeup ops s) fun reply s =>
    if reply then wakeupLoop ops 10 s else mfail .AckFail s

/-- The byte string `b"!CMD"`. -/
def bangCMD : List Nat := [0x21, 0x43, 0x4D, 0x44]

/-- The `while any(rep := read_ext(0x20, 4)):` loop of `HpmSPMI.command`:
a non-zero status equal to `b"!CMD"` is an invalid command, a non-zero
status different from `cmd` is a protocol mismatch, a status equal to `cmd`
means the command is still executing, and an all-zero status means it has
completed.  `fuel` bounds the busy-poll (a modelling artifact). -/
def pollLoop (ops : SpmiOps σ) (cmd : List Nat) : Nat → σ → Res σ Unit
  | 0, s => (.error .PollExhausted, s, [])
  | fuel + 1, s =>
    mbind (spmiReadExt ops 0x20 4 s) fun rep s =>
      if rep.any (fun b => b ≠ 0) then
        if rep = bangCMD then mfail .InvalidCommand s
        else if rep ≠ cmd then mfail .ProtocolMismatch s
        else pollLoop ops cmd fuel s
      else mok () s

/-- `HpmSPMI.command(cmd, data, out_size)`: `write(9, data)`,
`assert len(cmd) == 4`, `write(8, cmd)`, `select(8)`, busy-poll the status,
then return `read(9, out_size)`. -/
def command (ops : SpmiOps σ) (pollFuel : Nat) (cmd data : List Nat) (out_size : Nat)
    (s : σ) : Res σ (List Nat) :=
  mbind (write ops 9 data s) fun _ s =>
    if cmd.length = 4 then
      mbind (write ops 8 cmd s) fun _ s =>
        mbind (select ops 8 s) fun _ s =>
          mbind (pollLoop ops cmd pollFuel s) fun _ s =>
            read ops 9 (some out_size) s
    else mfail .AssertRange s

/-- Modelled from the spec, claim C1 wording only (for comparison with
`pollLoop`): "repeatedly `read_ext(0x20, 4)` **until** it returns a non-zero
value; if that value equals `b\"!CMD\"` fail with InvalidCommand; if it
matches `cmd` exactly the command **has completed**; any other non-zero
value fails with ProtocolMismatch". -/
def pollLoopClaimed (ops : SpmiOps σ) (cmd : List Nat) : Nat → σ → Res σ Unit
  | 0, s => (.error .PollExhausted, s, [])
  | fuel + 1, s =>
    mbind (spmiReadExt ops 0x20 4 s) fun rep s =>
      if rep.any (fun b => b ≠ 0) then
        if rep = bangCMD then mfail .InvalidCommand s
        else if rep = cmd then mok () s
        else mfail .ProtocolMismatch s
      else pollLoopClaimed ops cmd fuel s

/-- Modelled from the spec, claim C1 wording: `command` with the claimed
poll-until-non-zero completion rule in place of the source's loop. -/
def commandClaimed (ops : SpmiOps σ) (pollFuel : Nat) (cmd data : List Nat) (out_size : Nat)
    (s : σ) : Res σ (List Nat) :=
  mbind (write ops 9 data s) fun _ s =>
    if cmd.length = 4 then
      mbind (write ops 8 cmd s) fun _ s =>
        mbind (select ops 8 s) fun _ s =>
          mbind (pollLoopClaimed ops cmd pollFuel s) fun _ s =>
            read ops 9 (some out_size) s
    else mfail .AssertRange s

/-- `int.from_bytes(bytes, 'little')`. -/
def leNum : List Nat → Nat
  | [] => 0
  | b :: rest => b + 256 * leNum rest

/-- The `while evts: bits.add(bit := evts.bit_length() - 1); evts &= ~(1 << bit)`
loop of `HpmSPMI.read_events`: repeatedly record and clear the highest set
bit (`bit_length() - 1 = log2` for a positive number;  clearing the highest
set bit subtracts `2^bit`). -/
def collectBits (evts : Nat) : List Nat :=
  if evts = 0 then []
  else
    let bit := Nat.log2 evts
    bit :: collectBits (evts - 2 ^ bit)
termination_by evts
decreasing_by
  have h2 : 0 < 2 ^ Nat.log2 evts := Nat.two_pow_pos _
  omega

/-- The body of the `for base in (0x14, 0x15)` loop of
`HpmSPMI.read_events`: `e = read(base, 9); write(base + 4, e)`. -/
def readEventsBase (ops : SpmiOps σ) (base : Nat) (s : σ) : Res σ (List Nat) :=
  mbind (read ops base (some 9) s) fun e s =>
    mbind (write ops (base + 4) e s) fun _ s =>
      mok e s

/-- `HpmSPMI.read_events()`: read-and-clear the two 9-byte shadow registers
at bases 0x14 and 0x15, concatenate, and decode the little-endian bitfield. -/
def read_events (ops : SpmiOps σ) (s : σ) : Res σ (List Nat) :=
  mbind (readEventsBase ops 0x14 s) fun e1 s =>
    mbind (readEventsBase ops 0x15 s) fun e2 s =>
      mok (collectBits (leNum (e1 ++ e2))) s

end Hpm

namespace Hpm

/-- Pad-or-truncate a byte list to exactly `n` bytes (the frame layer
always returns exactly the requested number of bytes, zero-padding past
the device data). -/
def padTake (l : List Nat) (n : Nat) : List Nat := (l ++ List.replicate n 0).take n

theorem padTake_length (l : List Nat) (n : Nat) : (padTake l n).length = n := by
  simp only [padTake, List.length_take, List.length_append, List.length_replicate]
  omega

theorem padTake_of_length (l : List Nat) (n : Nat) (h : l.length = n) : padTake l n = l :=
  List.take_left' h

theorem padTake_of_le (l : List Nat) (n : Nat) (h : n ≤ l.length) :
    padTake l n = l.take n := by
  rw [padTake, List.take_append_of_le_length h]

/-- Overwrite the bytes of `l` at positions `k, k+1, ...` with `d`. -/
def storeAt (l : List Nat) (k : Nat) (d : List Nat) : List Nat :=
  l.take k ++ d ++ l.drop (k + d.length)

/-- A register-backed device: `write_zero` latches the selection, `read_reg 0`
echoes it, `read_reg 0x1F` reports the selected register's capacity,
`read_ext` at `0x20 + k` serves the selected register's bytes from offset
`k`, and `write_ext` at `0xA0 + k` stores into the same backing bytes
(the simulated device of claims C3/C4/C7/C8). -/
structure BDev where
  sel : Nat
  regs : Nat → List Nat

def bdevOps : SpmiOps BDev where
  wakeup := fun s => (true, s)
  write_zero := fun v s => (true, { s with sel := v })
  read_reg := fun r s =>
    (if r = 0 then s.sel else if r = 0x1F then (s.regs s.sel).length else 0, s)
  read_ext := fun reg n s =>
    (⟨padTake ((s.regs s.sel).drop (reg - 0x20)) n, padTake_length _ _⟩, s)
  write_ext := fun reg d s =>
    (true, { s with
      regs := fun i => if i = s.sel then storeAt (s.regs i) (reg - 0xA0) d else s.regs i })

/-- The chunk events issued by the read loop for a register read of `size`
bytes, `done` of which have been accumulated so far:  `read_ext` frames of
at most 16 bytes at offsets `0x20 + done`. -/
def readEvList (done size : Nat) : List Ev :=
  if done < size then
    .readExt (0x20 + done) (min (size - done) 16) :: readEvList (done + min (size - done) 16) size
  else []
termination_by size - done
decreasing_by omega

/-- The chunk events issued by the write loop for `data`, `written` bytes of
which have been sent so far: `write_ext` frames of at most 16 bytes at
offsets `0xA0 + written`, covering `data` in order. -/
def writeEvList (data : List Nat) (written : Nat) : List Ev :=
  if written < data.length then
    let to_write := min (data.length - written) 16
    .writeExt (0xA0 + written) ((data.drop written).take to_write) ::
      writeEvList data (written + to_write)
  else []
termination_by data.length - written
decreasing_by omega

/-- The payload bytes of a `writeExt` trace event. -/
def evData : Ev → List Nat
  | .writeExt _ d => d
  | _ => []

/-- Keep only the extended-read events of a trace. -/
def isReadExt : Ev → Bool
  | .readExt _ _ => true
  | _ => false

/-- A device like `BDev` whose register 8 additionally produces a scripted
sequence of status values on extended reads (the device executing the
command of claim C1): while register 8 is selected, each `read_ext` serves
and consumes the next script entry, and an exhausted script serves zeros. -/
structure CDev where
  sel : Nat
  regs : Nat → List Nat
  script : List (List Nat)

def cdevOps : SpmiOps CDev where
  wakeup := fun s => (true, s)
  write_zero := fun v s => (true, { s with sel := v })
  read_reg := fun r s =>
    (if r = 0 then s.sel else if r = 0x1F then (s.regs s.sel).length else 0, s)
  read_ext := fun reg n s =>
    if s.sel = 8 then
      match s.script with
      | st :: rest => (⟨padTake st n, padTake_length _ _⟩, { s with script := rest })
      | [] => (⟨padTake [] n, padTake_length _ _⟩, s)
    else (⟨padTake ((s.regs s.sel).drop (reg - 0x20)) n, padTake_length _ _⟩, s)
  write_ext := fun reg d s =>
    (true, { s with
      regs := fun i => if i = s.sel then storeAt (s.regs i) (reg - 0xA0) d else s.regs i })

/-- The simulated device of claim C6: it acknowledges every command, and
`read_reg(0)` reports the wakeup confirmation value 3 from the `k`-th
attempt onward, and `g i` (some other value) on earlier attempt `i`;
`count` counts the `read_reg(0)` calls made so far. -/
structure WDev where
  count : Nat

def wdevOps (k : Nat) (g : Nat → Nat) : SpmiOps WDev where
  wakeup := fun s => (true, s)
  write_zero := fun _ s => (true, s)
  read_reg := fun r s =>
    if r = 0 then ((if k ≤ s.count + 1 then 3 else g (s.count + 1)), ⟨s.count + 1⟩)
    else (0, s)
  read_ext := fun _ n s => (⟨padTake [] n, padTake_length _ _⟩, s)
  write_ext := fun _ _ s => (true, s)

end Hpm

namespace Hpm

theorem storeAt_length (l d : List Nat) (k : Nat) (h : k + d.length ≤ l.length) :
    (storeAt l k d).length = l.length := by
  simp only [storeAt, List.length_append, List.length_take, List.length_drop]
  omega

theorem chunk_append_drop (data : List Nat) (written t : Nat) :
    (data.drop written).take t ++ data.drop (written + t) = data.drop written := by
  have h : data.drop (written + t) = (data.drop written).drop t := by
    rw [List.drop_drop, Nat.add_comm]
  rw [h, List.take_append_drop]

theorem select_bdev (reg : Nat) (s : BDev) (hreg : reg < 0x80) :
    select bdevOps reg s = (.ok (), { s with sel := reg }, [.writeZero reg, .readReg 0]) := by
  simp [select, spmiWriteZero, spmiReadReg, bdevOps, mbind, mok, mfail, hreg]

theorem get_size_bdev (reg : Nat) (s : BDev) (hreg : reg < 0x80)
    (h64 : (s.regs reg).length ≤ 64) :
    get_size bdevOps reg s =
      (.ok (s.regs reg).length, { s with sel := reg },
        [.writeZero reg, .readReg 0, .readReg 0x1F]) := by
  simp only [get_size]
  rw [select_bdev reg s hreg]
  simp [spmiReadReg, bdevOps, mbind, mok, mfail, h64]

end Hpm

namespace Hpm

theorem bdev_read_ext (reg n : Nat) (s : BDev) :
    bdevOps.read_ext reg n s =
      (⟨padTake ((s.regs s.sel).drop (reg - 0x20)) n, padTake_length _ _⟩, s) := rfl

theorem readChunks_bdev :
    ∀ (m size : Nat) (acc : List Nat) (s : BDev), size - acc.length = m →
      acc.length ≤ size → size ≤ (s.regs s.sel).length → size ≤ 64 →
      acc = (s.regs s.sel).take acc.length →
      readChunks bdevOps size acc s =
        (.ok ((s.regs s.sel).take size), s, readEvList acc.length size) := by
  intro m
  induction m using Nat.strong_induction_on with
  | _ m IH =>
    intro size acc s hm hlen hcap h64 hacc
    rw [readChunks.eq_def, readEvList.eq_def]
    by_cases h : acc.length < size
    · rw [if_pos h, if_pos h]
      have hn1 : 1 ≤ min (size - acc.length) 16 := by omega
      have hn16 : min (size - acc.length) 16 ≤ 16 := by omega
      have hoff : 0x20 + acc.length < 0x100 := by omega
      rw [if_pos ⟨hn1, hn16, hoff⟩]
      simp only [bdev_read_ext, Nat.add_sub_cancel_left]
      rw [padTake_of_le _ _ (by simp only [List.length_drop]; omega)]
      have key : acc ++ ((s.regs s.sel).drop acc.length).take (min (size - acc.length) 16) =
          (s.regs s.sel).take (acc.length + min (size - acc.length) 16) := by
        rw [List.take_add, ← hacc]
      rw [key]
      have hlen2 : ((s.regs s.sel).take
          (acc.length + min (size - acc.length) 16)).length =
          acc.length + min (size - acc.length) 16 := by
        simp only [List.length_take]
        omega
      rw [IH (size - (acc.length + min (size - acc.length) 16)) (by omega) size _ s
        (by rw [hlen2]) (by rw [hlen2]; omega) hcap h64 (by rw [hlen2])]
      rw [hlen2]
    · rw [if_neg h, if_neg h]
      have hlen0 : acc.length = size := by omega
      rw [mok, hacc, hlen0]

end Hpm

namespace Hpm

theorem storeAt_zero (l d : List Nat) : storeAt l 0 d = d ++ l.drop d.length := by
  simp [storeAt]

theorem storeAt_storeAt (l data : List Nat) (w t : Nat) (ht1 : 1 ≤ t)
    (ht : t ≤ data.length - w) (hw : w < data.length) (hl : data.length ≤ l.length) :
    storeAt (storeAt l w ((data.drop w).take t)) (w + t) (data.drop (w + t)) =
      storeAt l w (data.drop w) := by
  have hchl : ((data.drop w).take t).length = t := by
    simp only [List.length_take, List.length_drop]
    omega
  have hPlen : (l.take w ++ (data.drop w).take t).length = w + t := by
    simp only [List.length_append, hchl, List.length_take]
    omega
  unfold storeAt
  rw [hchl]
  have hA1 : ((l.take w ++ (data.drop w).take t) ++ l.drop (w + t)).take (w + t) =
      l.take w ++ (data.drop w).take t := List.take_left' hPlen
  have hdl : w + t + (data.drop (w + t)).length = data.length := by
    simp only [List.length_drop]
    omega
  have hA2 : ((l.take w ++ (data.drop w).take t) ++ l.drop (w + t)).drop
      (w + t + (data.drop (w + t)).length) = l.drop data.length := by
    rw [hdl, List.drop_append_eq_append_drop,
      List.drop_eq_nil_of_le (by rw [hPlen]; omega), List.drop_drop, hPlen]
    have harith : w + t + (data.length - (w + t)) = data.length := by omega
    rw [harith, List.nil_append]
  rw [hA1, hA2]
  have hd2 : w + (data.drop w).length = data.length := by
    simp only [List.length_drop]
    omega
  rw [hd2, List.append_assoc (l.take w), chunk_append_drop]

theorem bdev_write_ext (reg : Nat) (d : List Nat) (s : BDev) :
    bdevOps.write_ext reg d s =
      (true, { s with
        regs := fun i => if i = s.sel then storeAt (s.regs i) (reg - 0xA0) d else s.regs i }) :=
  rfl

theorem writeChunks_bdev :
    ∀ (m : Nat) (data : List Nat) (written : Nat) (s : BDev), data.length - written = m →
      written ≤ data.length → data.length ≤ (s.regs s.sel).length → data.length ≤ 64 →
      writeChunks bdevOps data written s =
        (.ok (),
          { s with regs := fun i =>
              if i = s.sel then storeAt (s.regs s.sel) written (data.drop written)
              else s.regs i },
          writeEvList data written) := by
  intro m
  induction m using Nat.strong_induction_on with
  | _ m IH =>
    intro data written s hm hw hcap h64
    obtain ⟨sel, regs⟩ := s
    change data.length ≤ (regs sel).length at hcap
    rw [writeChunks.eq_def, writeEvList.eq_def]
    by_cases h : written < data.length
    · rw [if_pos h, if_pos h]
      have hchl : ((data.drop written).take (min (data.length - written) 16)).length =
          min (data.length - written) 16 := by
        simp only [List.length_take, List.length_drop]
        omega
      rw [if_pos (show 1 ≤ ((data.drop written).take (min (data.length - written) 16)).length ∧
          ((data.drop written).take (min (data.length - written) 16)).length ≤ 16 ∧
          0xA0 + written < 0x100 by rw [hchl]; refine ⟨by omega, by omega, by omega⟩)]
      rw [bdev_write_ext]
      simp only [Nat.add_sub_cancel_left]
      rw [if_pos trivial]
      have hcap2 : data.length ≤
          (if sel = sel then
            storeAt (regs sel) written
              ((data.drop written).take (min (data.length - written) 16))
          else regs sel).length := by
        rw [if_pos rfl, storeAt_length]
        · exact hcap
        · rw [hchl]
          omega
      rw [IH (data.length - (written + min (data.length - written) 16)) (by omega) data
        (written + min (data.length - written) 16)
        { sel := sel,
          regs := fun i =>
            if i = sel then
              storeAt (regs i) written ((data.drop written).take (min (data.length - written) 16))
            else regs i } rfl (by omega) hcap2 h64]
      simp only [Prod.mk.injEq]
      refine ⟨by trivial, ?_, by trivial⟩
      simp only [BDev.mk.injEq]
      refine ⟨by trivial, ?_⟩
      funext i
      by_cases hi : i = sel
      · subst hi
        simp only [if_pos rfl]
        exact storeAt_storeAt (regs i) data written (min (data.length - written) 16)
          (by omega) (by omega) h hcap
      · simp [hi]
    · rw [if_neg h, if_neg h]
      have hw0 : written = data.length := by omega
      subst hw0
      rw [List.drop_length]
      have hsto : storeAt (regs sel) data.length [] = regs sel := by
        simp [storeAt]
      rw [hsto]
      simp only [mok, Prod.mk.injEq]
      refine ⟨by trivial, ?_, by trivial⟩
      simp only [BDev.mk.injEq]
      refine ⟨by trivial, ?_⟩
      funext i
      by_cases hi : i = sel
      · subst hi
        simp
      · simp [hi]

end Hpm

namespace Hpm

theorem read_bdev (reg : Nat) (sizeArg : Option Nat) (s : BDev) (hreg : reg < 0x80)
    (h64 : (s.regs reg).length ≤ 64)
    (hsz : sizeArg.getD (s.regs reg).length ≤ (s.regs reg).length) :
    read bdevOps reg sizeArg s =
      (.ok ((s.regs reg).take (sizeArg.getD (s.regs reg).length)), { s with sel := reg },
        [Ev.writeZero reg, Ev.readReg 0, Ev.readReg 0x1F] ++
          readEvList 0 (sizeArg.getD (s.regs reg).length)) := by
  obtain ⟨sel0, regs0⟩ := s
  simp only [read]
  rw [get_size_bdev reg ⟨sel0, regs0⟩ hreg h64]
  simp only [mbind]
  rw [if_pos hsz]
  rw [readChunks_bdev (sizeArg.getD (regs0 reg).length) (sizeArg.getD (regs0 reg).length)
    [] ⟨reg, regs0⟩ (by simp) (by simp) hsz (le_trans hsz h64) (by simp)]
  simp

theorem write_bdev (reg : Nat) (data : List Nat) (s : BDev) (hreg : reg < 0x80)
    (h64 : (s.regs reg).length ≤ 64) (hlen : data.length ≤ (s.regs reg).length) :
    write bdevOps reg data s =
      (.ok (),
        { s with
          sel := reg
          regs := fun i =>
            if i = reg then data ++ (s.regs reg).drop data.length
            else s.regs i },
        ([Ev.writeZero reg, Ev.readReg 0, Ev.readReg 0x1F] ++ writeEvList data 0) ++
          [Ev.writeZero reg, Ev.readReg 0]) := by
  obtain ⟨sel0, regs0⟩ := s
  simp only [write]
  rw [get_size_bdev reg ⟨sel0, regs0⟩ hreg h64]
  simp only [mbind]
  rw [if_pos hlen]
  rw [writeChunks_bdev data.length data 0 ⟨reg, regs0⟩ (by simp) (by simp) hlen
    (le_trans hlen h64)]
  simp only [select_bdev reg _ hreg, List.drop_zero, mbind]
  simp only [Prod.mk.injEq]
  refine ⟨by trivial, ?_, by simp⟩
  simp only [BDev.mk.injEq]
  refine ⟨by trivial, ?_⟩
  funext i
  by_cases hi : i = reg
  · subst hi
    simp [storeAt_zero]
  · simp [hi]

end Hpm

/-! ### C3: chunking of `read` -/

/-- The concrete device of the `read(reg, size=37)` scenario: every register
backed by 37 bytes. -/
def s37 : Hpm.BDev := ⟨0, fun _ => List.replicate 37 0⟩

/-- Counterexample to C3: `read(reg, 37)` issues its three extended-read
frames at offsets 0x20, 0x30 and **0x40** (= 0x20 + 32), not at 0x35 as the
claim states. -/
theorem read37_offsets_counterexample :
    (Hpm.read Hpm.bdevOps 1 (some 37) s37).2.2.filter Hpm.isReadExt =
      [Hpm.Ev.readExt 0x20 16, Hpm.Ev.readExt 0x30 16, Hpm.Ev.readExt 0x40 5] ∧
    (Hpm.read Hpm.bdevOps 1 (some 37) s37).2.2.filter Hpm.isReadExt ≠
      [Hpm.Ev.readExt 0x20 16, Hpm.Ev.readExt 0x30 16, Hpm.Ev.readExt 0x35 5] := by
  have h := Hpm.read_bdev 1 (some 37) s37 (by decide) (by simp [s37]) (by simp [s37])
  rw [h]
  constructor
  · simp [Hpm.readEvList, Hpm.isReadExt]
  · simp [Hpm.readEvList, Hpm.isReadExt]

/-- C3 (amended): `read(reg, size)` on a register-backed device returns the
first `size` backing bytes, and its extended-read frames are `readEvList 0 size`:
chunks of at most 16 bytes at offset `0x20 +` (bytes accumulated so far), in
offset order, until `size` bytes are accumulated; for `size = 37` these are
frames of 16, 16 and 5 bytes at offsets 0x20, 0x30 and **0x40**. -/
theorem read_chunk_offsets (reg size : Nat) (s : Hpm.BDev) (hreg : reg < 0x80)
    (hsz : size ≤ (s.regs reg).length) (h64 : (s.regs reg).length ≤ 64) :
    Hpm.read Hpm.bdevOps reg (some size) s =
      (.ok ((s.regs reg).take size), { s with sel := reg },
        [Hpm.Ev.writeZero reg, Hpm.Ev.readReg 0, Hpm.Ev.readReg 0x1F] ++
          Hpm.readEvList 0 size) ∧
    Hpm.readEvList 0 37 =
      [Hpm.Ev.readExt 0x20 16, Hpm.Ev.readExt 0x30 16, Hpm.Ev.readExt 0x40 5] := by
  constructor
  · have h := Hpm.read_bdev reg (some size) s hreg h64 (by simpa using hsz)
    simpa using h
  · simp [Hpm.readEvList]

/-- Witness for C3 (amended) at the 37-byte device. -/
theorem read_chunk_offsets_witness :
    Hpm.read Hpm.bdevOps 1 (some 37) s37 =
      (.ok ((s37.regs 1).take 37), { s37 with sel := 1 },
        [Hpm.Ev.writeZero 1, Hpm.Ev.readReg 0, Hpm.Ev.readReg 0x1F] ++
          Hpm.readEvList 0 37) ∧
    Hpm.readEvList 0 37 =
      [Hpm.Ev.readExt 0x20 16, Hpm.Ev.readExt 0x30 16, Hpm.Ev.readExt 0x40 5] :=
  read_chunk_offsets 1 37 s37 (by decide) (by simp [s37]) (by simp [s37])

/-! ### C4: write-then-read round trip -/

/-- The concrete device of the C4 counterexample: every register backed by
the two bytes `[5, 7]`. -/
def devC4 : Hpm.BDev := ⟨0, fun _ => [5, 7]⟩

/-- Counterexample to C4: on a register of capacity 2 holding `[5, 7]`,
`write(reg, [9])` followed by `read(reg)` returns `[9, 7]` — the default
read covers the full capacity, so the round trip is **not** the identity
for data shorter than the capacity. -/
theorem write_read_roundtrip_counterexample :
    (Hpm.mbind (Hpm.write Hpm.bdevOps 1 [9] devC4) fun _ s1 =>
        Hpm.read Hpm.bdevOps 1 none s1).1 = .ok [9, 7] ∧
    (Except.ok [9, 7] : Except Hpm.HpmErr (List Nat)) ≠ .ok [9] := by
  constructor
  · rw [Hpm.write_bdev 1 [9] devC4 (by decide) (by simp [devC4]) (by simp [devC4])]
    simp only [Hpm.mbind]
    rw [Hpm.read_bdev 1 none _ (by decide) (by simp [devC4]) (by simp)]
    simp [devC4]
  · simp

/-- C4 (amended): against a device that stores extended writes and serves
extended reads from the same backing bytes, `write(reg, data)` followed by
`read(reg)` returns `data` extended with the previous backing bytes past
`len(data)`; in particular its first `len(data)` bytes are `data`, and it
is `data` itself exactly when `len(data)` equals the capacity. -/
theorem write_then_read_prefix (reg : Nat) (data : List Nat) (s : Hpm.BDev)
    (hreg : reg < 0x80) (hlen : data.length ≤ (s.regs reg).length)
    (h64 : (s.regs reg).length ≤ 64) :
    (Hpm.mbind (Hpm.write Hpm.bdevOps reg data s) fun _ s1 =>
        Hpm.read Hpm.bdevOps reg none s1).1 =
      .ok (data ++ (s.regs reg).drop data.length) ∧
    (data ++ (s.regs reg).drop data.length).take data.length = data ∧
    (data.length = (s.regs reg).length → data ++ (s.regs reg).drop data.length = data) := by
  refine ⟨?_, List.take_left data _, fun hEq => by
    rw [List.drop_eq_nil_of_le (le_of_eq hEq.symm), List.append_nil]⟩
  rw [Hpm.write_bdev reg data s hreg h64 hlen]
  simp only [Hpm.mbind]
  rw [Hpm.read_bdev reg none _ hreg (by simp [List.length_append]; omega) (by simp)]
  simp [List.take_length]

/-- Witness for C4 (amended) at the concrete two-byte device. -/
theorem write_then_read_prefix_witness :
    (Hpm.mbind (Hpm.write Hpm.bdevOps 1 [9] devC4) fun _ s1 =>
        Hpm.read Hpm.bdevOps 1 none s1).1 =
      .ok ([9] ++ (devC4.regs 1).drop 1) ∧
    ([9] ++ (devC4.regs 1).drop 1).take 1 = [9] ∧
    (([9] : List Nat).length = (devC4.regs 1).length →
      [9] ++ (devC4.regs 1).drop 1 = [9]) := by
  have h := write_then_read_prefix 1 [9] devC4 (by decide) (by simp [devC4]) (by simp [devC4])
  simpa using h

/-! ### C7: chunking and final selection of `write` -/

/-- The `write_ext` payloads of the write trace, concatenated in order,
cover the written data exactly. -/
theorem writeEvList_payloads :
    ∀ (m : Nat) (data : List Nat) (written : Nat), data.length - written = m →
      ((Hpm.writeEvList data written).map Hpm.evData).flatten = data.drop written := by
  intro m
  induction m using Nat.strong_induction_on with
  | _ m IH =>
    intro data written hm
    rw [Hpm.writeEvList.eq_def]
    by_cases h : written < data.length
    · rw [if_pos h]
      simp only [List.map_cons, List.flatten_cons, Hpm.evData]
      rw [IH (data.length - (written + min (data.length - written) 16)) (by omega) data
        (written + min (data.length - written) 16) rfl]
      exact Hpm.chunk_append_drop data written (min (data.length - written) 16)
    · rw [if_neg h]
      simp only [List.map_nil, List.flatten_nil]
      rw [List.drop_eq_nil_of_le (by omega)]

/-- C7: `write(reg, data)` resolves the capacity via `get_size` and fails
with SizeMismatch when `len(data)` exceeds it (having issued no write
frame); otherwise it issues the `write_ext` chunks of `writeEvList data 0`
(at most 16 bytes each, chunk `i` at offset `0xA0 +` bytes written before
it, covering `data` in order) and then selects the register once more as
the final commit step. -/
theorem write_chunking_commit (reg : Nat) (data : List Nat) (s : Hpm.BDev)
    (hreg : reg < 0x80) (h64 : (s.regs reg).length ≤ 64) :
    (data.length ≤ (s.regs reg).length →
      Hpm.write Hpm.bdevOps reg data s =
        (.ok (),
          { s with
            sel := reg
            regs := fun i =>
              if i = reg then data ++ (s.regs reg).drop data.length
              else s.regs i },
          ([Hpm.Ev.writeZero reg, Hpm.Ev.readReg 0, Hpm.Ev.readReg 0x1F] ++
            Hpm.writeEvList data 0) ++ [Hpm.Ev.writeZero reg, Hpm.Ev.readReg 0])) ∧
    ((s.regs reg).length < data.length →
      Hpm.write Hpm.bdevOps reg data s =
        (.error .SizeMismatch, { s with sel := reg },
          [Hpm.Ev.writeZero reg, Hpm.Ev.readReg 0, Hpm.Ev.readReg 0x1F])) ∧
    ((Hpm.writeEvList data 0).map Hpm.evData).flatten = data := by
  refine ⟨fun hlen => Hpm.write_bdev reg data s hreg h64 hlen, fun hover => ?_, ?_⟩
  · simp only [Hpm.write]
    rw [Hpm.get_size_bdev reg s hreg h64]
    simp only [Hpm.mbind]
    rw [if_neg (by omega)]
    simp [Hpm.mfail]
  · have h := writeEvList_payloads data.length data 0 rfl
    simpa using h

/-- Witness for C7 at a concrete device and payload (both branches). -/
theorem write_chunking_commit_witness :
    (([9] : List Nat).length ≤ (devC4.regs 1).length →
      Hpm.write Hpm.bdevOps 1 [9] devC4 =
        (.ok (),
          { devC4 with
            sel := 1
            regs := fun i =>
              if i = 1 then [9] ++ (devC4.regs 1).drop 1
              else devC4.regs i },
          ([Hpm.Ev.writeZero 1, Hpm.Ev.readReg 0, Hpm.Ev.readReg 0x1F] ++
            Hpm.writeEvList [9] 0) ++ [Hpm.Ev.writeZero 1, Hpm.Ev.readReg 0])) ∧
    ((devC4.regs 1).length < ([9] : List Nat).length →
      Hpm.write Hpm.bdevOps 1 [9] devC4 =
        (.error .SizeMismatch, { devC4 with sel := 1 },
          [Hpm.Ev.writeZero 1, Hpm.Ev.readReg 0, Hpm.Ev.readReg 0x1F])) ∧
    ((Hpm.writeEvList [9] 0).map Hpm.evData).flatten = [9] :=
  write_chunking_commit 1 [9] devC4 (by decide) (by simp [devC4])

/-! ### C6: the wakeup retry loop -/

theorem wdev_wakeup (k : Nat) (g : Nat → Nat) (s : Hpm.WDev) :
    (Hpm.wdevOps k g).wakeup s = (true, s) := rfl

theorem wdev_write_zero (k : Nat) (g : Nat → Nat) (v : Nat) (s : Hpm.WDev) :
    (Hpm.wdevOps k g).write_zero v s = (true, s) := rfl

theorem wdev_read_reg0 (k : Nat) (g : Nat → Nat) (c : Nat) :
    (Hpm.wdevOps k g).read_reg 0 ⟨c⟩ =
      ((if k ≤ c + 1 then 3 else g (c + 1)), ⟨c + 1⟩) := rfl

theorem wakeupLoop_wdev (k : Nat) (g : Nat → Nat) (hg : ∀ i, g i ≠ 3) :
    ∀ (n c : Nat), c < k →
      Hpm.wakeupLoop (Hpm.wdevOps k g) n ⟨c⟩ =
        (if k ≤ c + n then
          (.ok (), ⟨k⟩, (List.replicate (k - c) [Hpm.Ev.writeZero 3, Hpm.Ev.readReg 0]).flatten)
        else
          (.error .WakeupTimeout, ⟨c + n⟩,
            (List.replicate n [Hpm.Ev.writeZero 3, Hpm.Ev.readReg 0]).flatten)) := by
  intro n
  induction n with
  | zero =>
    intro c hc
    rw [if_neg (by omega)]
    simp [Hpm.wakeupLoop]
  | succ n IHn =>
    intro c hc
    by_cases hk1 : k ≤ c + 1
    · rw [if_pos (show k ≤ c + (n + 1) by omega)]
      have hrep : k - c = 1 := by omega
      rw [hrep]
      have hk : k = c + 1 := by omega
      simp [Hpm.wakeupLoop, Hpm.spmiWriteZero, Hpm.spmiReadReg, wdev_write_zero,
        wdev_read_reg0, Hpm.mbind, Hpm.mok, Hpm.mfail, hk1, hk]
    · have hne : g (c + 1) ≠ 3 := hg (c + 1)
      have hIH := IHn (c + 1) (by omega)
      by_cases hkn : k ≤ c + (n + 1)
      · rw [if_pos hkn]
        rw [if_pos (show k ≤ c + 1 + n by omega)] at hIH
        have hkc : k - c = (k - (c + 1)) + 1 := by omega
        rw [hkc, List.replicate_succ, List.flatten_cons]
        simp [Hpm.wakeupLoop, Hpm.spmiWriteZero, Hpm.spmiReadReg, wdev_write_zero,
          wdev_read_reg0, Hpm.mbind, Hpm.mok, Hpm.mfail, hk1, hne, hIH]
      · rw [if_neg hkn]
        rw [if_neg (show ¬k ≤ c + 1 + n by omega)] at hIH
        have harr : c + 1 + n = c + (n + 1) := by omega
        rw [harr] at hIH
        simp [Hpm.wakeupLoop, Hpm.spmiWriteZero, Hpm.spmiReadReg, wdev_write_zero,
          wdev_read_reg0, Hpm.mbind, Hpm.mok, Hpm.mfail, hk1, hne, hIH,
          List.replicate_succ, List.flatten_cons]

/-- C6: against a device that acknowledges the wakeup command and reports
the confirmation value 3 from `read_reg(0)` only from the `k`-th
`write_zero(3)`/`read_reg(0)` attempt onward (earlier attempts reporting
`g i ≠ 3`), `wakeup()` succeeds iff `k ≤ 10`, issuing exactly `k`
attempts and stopping at the first observation of 3; for `k > 10` it
performs exactly 10 attempts and raises WakeupTimeout. -/
theorem wakeup_retry_iff (k : Nat) (g : Nat → Nat) (hg : ∀ i, g i ≠ 3) (hk : 1 ≤ k) :
    (k ≤ 10 →
      Hpm.wakeup (Hpm.wdevOps k g) ⟨0⟩ =
        (.ok (), ⟨k⟩,
          Hpm.Ev.wakeupCmd ::
            (List.replicate k [Hpm.Ev.writeZero 3, Hpm.Ev.readReg 0]).flatten)) ∧
    (10 < k →
      Hpm.wakeup (Hpm.wdevOps k g) ⟨0⟩ =
        (.error .WakeupTimeout, ⟨10⟩,
          Hpm.Ev.wakeupCmd ::
            (List.replicate 10 [Hpm.Ev.writeZero 3, Hpm.Ev.readReg 0]).flatten)) := by
  have hloop := wakeupLoop_wdev k g hg 10 0 (by omega)
  simp only [Nat.zero_add, Nat.sub_zero] at hloop
  constructor <;> intro hcase
  · rw [if_pos (by omega)] at hloop
    simp [Hpm.wakeup, Hpm.spmiWakeup, wdev_wakeup, Hpm.mbind, Hpm.mok, Hpm.mfail, hloop]
  · rw [if_neg (by omega)] at hloop
    simp [Hpm.wakeup, Hpm.spmiWakeup, wdev_wakeup, Hpm.mbind, Hpm.mok, Hpm.mfail, hloop]

/-- Witness for C6 at `k = 3`: success after exactly 3 attempts. -/
theorem wakeup_retry_iff_witness :
    Hpm.wakeup (Hpm.wdevOps 3 (fun _ => 0)) ⟨0⟩ =
      (.ok (), ⟨3⟩,
        Hpm.Ev.wakeupCmd ::
          (List.replicate 3 [Hpm.Ev.writeZero 3, Hpm.Ev.readReg 0]).flatten) :=
  (wakeup_retry_iff 3 (fun _ => 0) (fun i => by simp) (by omega)).1 (by omega)

/-! ### C10: register range guard of `select`/`write_zero` -/

theorem raw_command_ne_assert (slave cmd extra : Nat) (data : List Nat) (size : Nat)
    (active : Bool) (queue : List Nat) (hr : slave < 16 ∧ cmd < 256 ∧ extra < 65536) :
    (Spmi.raw_command slave cmd extra data size active queue).1 ≠ .error .AssertRange := by
  simp only [Spmi.raw_command, if_pos hr]
  rcases queue with _ | ⟨w, rest⟩
  · simp
  · by_cases hid : (Spmi.R_REPLY.decode w).SLAVE_ID = slave ∧ (Spmi.R_REPLY.decode w).CMD = cmd
    · simp only [if_pos hid]
      by_cases hp : (Spmi.R_REPLY.decode w).FRAME_PARITY = 2 ^ size - 1
      · simp only [if_pos hp]
        cases hq : Spmi.pullBuf size rest with
        | error e =>
          have he := pullBuf_error_timeout size rest e hq
          subst he
          simp
        | ok p =>
          obtain ⟨buf, q2⟩ := p
          by_cases hz : (buf.drop size).all (fun b => b = 0) <;> simp [hz]
      · simp [hp]
    · simp [hid]

/-- C10: `select(reg)` — and through it `get_size`, `read`, `write` and
`command` — accepts exactly the register indices `0 ≤ reg < 128`: for
`reg < 128` (and a valid slave id) the range assertion inside `write_zero`
can never fire, at the frame level or at the device level; for
`reg ≥ 128`, `write_zero` fails that assertion with no frame sent (empty
TX list), and `select` fails it with no SPMI command issued (empty trace),
for every device. -/
theorem select_range_guard :
    (∀ (slave value : Nat) (queue : List Nat), slave < 16 → value < 0x80 →
      (Spmi.write_zero slave value queue).1 ≠ .error .AssertRange) ∧
    (∀ (slave value : Nat) (queue : List Nat), 0x80 ≤ value →
      Spmi.write_zero slave value queue = (.error .AssertRange, [])) ∧
    (∀ (σ : Type) (ops : Hpm.SpmiOps σ) (reg : Nat) (s : σ), 0x80 ≤ reg →
      Hpm.select ops reg s = (.error .AssertRange, s, [])) ∧
    (∀ (σ : Type) (ops : Hpm.SpmiOps σ) (reg : Nat) (s : σ), reg < 0x80 →
      (Hpm.select ops reg s).1 ≠ .error .AssertRange) := by
  refine ⟨?_, ?_, ?_, ?_⟩
  · intro slave value queue hs hv
    have hcmd : 0x80 ||| value < 256 := by
      have h1 : (0x80 : Nat) < 2 ^ 8 := by norm_num
      have h2 : value < 2 ^ 8 := by norm_num; omega
      simpa using Nat.or_lt_two_pow h1 h2
    have hextra : value <<< 8 < 65536 := by
      rw [Nat.shiftLeft_eq]
      have h2 : (2 : Nat) ^ 8 = 256 := by norm_num
      rw [h2]
      omega
    simp only [Spmi.write_zero, if_pos hv]
    have hne := raw_command_ne_assert slave (0x80 ||| value) (value <<< 8) [] 0 true queue
      ⟨hs, hcmd, hextra⟩
    cases hrc : Spmi.raw_command slave (0x80 ||| value) (value <<< 8) [] 0 true queue with
    | mk res tx =>
      rw [hrc] at hne
      cases res with
      | error e =>
        simpa using hne
      | ok p =>
        obtain ⟨ack, rest⟩ := p
        simp
  · intro slave value queue hv
    simp [Spmi.write_zero, show ¬value < 0x80 by omega]
  · intro σ ops reg s hreg
    simp [Hpm.select, Hpm.spmiWriteZero, Hpm.mbind, show ¬reg < 0x80 by omega]
  · intro σ ops reg s hreg
    simp only [Hpm.select, Hpm.spmiWriteZero, if_pos hreg]
    cases hw : ops.write_zero reg s with
    | mk reply s2 =>
      cases reply
      · simp [Hpm.mbind, Hpm.mfail, hw]
      · cases hr : ops.read_reg 0 s2 with
        | mk v s3 =>
          by_cases hv : v = reg <;>
            simp [Hpm.mbind, Hpm.spmiReadReg, Hpm.mok, Hpm.mfail, hw, hr, hv]

/-- Witness for C10 at concrete inputs on both sides of the boundary. -/
theorem select_range_guard_witness :
    (Spmi.write_zero 0 3 []).1 ≠ .error .AssertRange ∧
    Spmi.write_zero 0 0x80 [] = (.error .AssertRange, []) ∧
    Hpm.select Hpm.bdevOps 0x80 ⟨0, fun _ => []⟩ = (.error .AssertRange, ⟨0, fun _ => []⟩, []) ∧
    (Hpm.select Hpm.bdevOps 3 ⟨0, fun _ => []⟩).1 ≠ .error .AssertRange :=
  ⟨select_range_guard.1 0 3 [] (by decide) (by decide),
   select_range_guard.2.1 0 0x80 [] (by decide),
   select_range_guard.2.2.1 Hpm.BDev Hpm.bdevOps 0x80 ⟨0, fun _ => []⟩ (by decide),
   select_range_guard.2.2.2 Hpm.BDev Hpm.bdevOps 3 ⟨0, fun _ => []⟩ (by decide)⟩

/-! ### C8: event decoding -/

theorem testBit_two_pow_add (b m i : Nat) (hm : m < 2 ^ b) :
    (2 ^ b + m).testBit i = (decide (i = b) || m.testBit i) := by
  rcases Nat.lt_trichotomy i b with hib | hib | hib
  · rw [Nat.testBit_to_div_mod, Nat.testBit_to_div_mod]
    have h1 : (2 : Nat) ^ b = 2 ^ i * 2 ^ (b - i) := by
      rw [← pow_add]
      congr 1
      omega
    rw [h1, Nat.mul_add_div (Nat.two_pow_pos i)]
    have h2 : (2 : Nat) ^ (b - i) = 2 * 2 ^ (b - i - 1) := by
      rw [← pow_succ']
      congr 1
      omega
    rw [h2]
    have h3 : decide (i = b) = false := by
      simp only [decide_eq_false_iff_not]
      omega
    rw [h3, Bool.false_or, decide_eq_decide]
    omega
  · subst hib
    rw [Nat.testBit_to_div_mod]
    have h1 : (2 ^ i + m) / 2 ^ i = 0 + 1 := by
      rw [Nat.add_comm, Nat.add_div_right _ (Nat.two_pow_pos i), Nat.div_eq_of_lt hm]
    rw [h1]
    simp
  · have h1 : (2 ^ b + m).testBit i = false := Nat.testBit_eq_false_of_lt (by
      have hle : (2 : Nat) ^ (b + 1) ≤ 2 ^ i := Nat.pow_le_pow_right (by omega) (by omega)
      have hstep : (2 : Nat) ^ b + m < 2 ^ (b + 1) := by
        rw [pow_succ]
        omega
      omega)
    have h2 : m.testBit i = false := Nat.testBit_eq_false_of_lt (by
      have hle : (2 : Nat) ^ b ≤ 2 ^ i := Nat.pow_le_pow_right (by omega) (by omega)
      omega)
    have h3 : decide (i = b) = false := by
      simp only [decide_eq_false_iff_not]
      omega
    rw [h1, h2, h3]
    simp

theorem collectBits_mem : ∀ n i, i ∈ Hpm.collectBits n ↔ n.testBit i = true := by
  intro n
  induction n using Nat.strong_induction_on with
  | _ n IH =>
    intro i
    rw [Hpm.collectBits.eq_def]
    by_cases h0 : n = 0
    · subst h0
      simp
    · rw [if_neg h0]
      have hle : 2 ^ Nat.log2 n ≤ n := Nat.log2_self_le h0
      have hlt : n < 2 ^ (Nat.log2 n + 1) := Nat.lt_log2_self
      have hp := Nat.two_pow_pos (Nat.log2 n)
      have hm : n - 2 ^ Nat.log2 n < 2 ^ Nat.log2 n := by
        rw [pow_succ] at hlt
        omega
      have hsplit : n = 2 ^ Nat.log2 n + (n - 2 ^ Nat.log2 n) := by omega
      rw [List.mem_cons, IH (n - 2 ^ Nat.log2 n) (by omega) i]
      have hkey : n.testBit i =
          (decide (i = Nat.log2 n) || (n - 2 ^ Nat.log2 n).testBit i) := by
        conv_lhs => rw [hsplit]
        exact testBit_two_pow_add (Nat.log2 n) (n - 2 ^ Nat.log2 n) i hm
      rw [hkey]
      simp

theorem log2_eq_of (n b : Nat) (h1 : 2 ^ b ≤ n) (h2 : n < 2 ^ (b + 1)) :
    Nat.log2 n = b := by
  rw [Nat.log2_eq_log_two]
  exact Nat.log_eq_of_pow_le_of_lt_pow h1 h2

theorem collectBits_concrete : Hpm.collectBits (2 ^ 40 + 8) = [40, 3] := by
  have h40 : Nat.log2 (2 ^ 40 + 8) = 40 := log2_eq_of _ 40 (by norm_num) (by norm_num)
  have h3 : Nat.log2 8 = 3 := log2_eq_of 8 3 (by norm_num) (by norm_num)
  rw [Hpm.collectBits.eq_def, if_neg (by norm_num), h40]
  show (40 : Nat) :: Hpm.collectBits (2 ^ 40 + 8 - 2 ^ 40) = [40, 3]
  rw [show (2 : Nat) ^ 40 + 8 - 2 ^ 40 = 8 by norm_num]
  rw [Hpm.collectBits.eq_def, if_neg (by norm_num), h3]
  show (40 : Nat) :: (3 : Nat) :: Hpm.collectBits (8 - 2 ^ 3) = [40, 3]
  rw [show (8 : Nat) - 2 ^ 3 = 0 by norm_num]
  rw [Hpm.collectBits.eq_def]
  simp

/-- The 9-byte block with bits 3 and 40 set (byte 0 = 8, byte 5 = 1). -/
def e1bits : List Nat := [8, 0, 0, 0, 0, 1, 0, 0, 0]

/-- Device with all-zero 9-byte shadow registers. -/
def devZero : Hpm.BDev := ⟨0, fun _ => List.replicate 9 0⟩

/-- Device whose 0x14 shadow block carries bits 3 and 40 of the combined
bitfield (all other registers zero). -/
def devEvt : Hpm.BDev := ⟨0, fun r => if r = 0x14 then e1bits else List.replicate 9 0⟩

theorem collectBits_zero : Hpm.collectBits 0 = [] := by
  rw [Hpm.collectBits.eq_def]
  simp

/-- C8: `read_events()` reads 9 bytes from each shadow base 0x14 and 0x15
and writes the same bytes back to base+4 (one `write_ext` write-back per
base, carrying exactly the bytes just read, as the traces show), and
returns exactly the set-bit positions of the 18-byte little-endian
bitfield: the general clause states that membership in the returned list
is exactly `testBit`; on all-zero shadow bytes the result is empty, and
with precisely bits 3 and 40 set it is exactly `{3, 40}`. -/
theorem read_events_bits :
    (∀ n i, i ∈ Hpm.collectBits n ↔ n.testBit i = true) ∧
    (Hpm.read_events Hpm.bdevOps devZero).1 = .ok [] ∧
    (Hpm.read_events Hpm.bdevOps devEvt).1 = .ok [40, 3] ∧
    ([40, 3] : List Nat).toFinset = ({3, 40} : Finset Nat) ∧
    (Hpm.read_events Hpm.bdevOps devEvt).2.2 =
      [Hpm.Ev.writeZero 0x14, Hpm.Ev.readReg 0, Hpm.Ev.readReg 0x1F, Hpm.Ev.readExt 0x20 9,
       Hpm.Ev.writeZero 0x18, Hpm.Ev.readReg 0, Hpm.Ev.readReg 0x1F,
       Hpm.Ev.writeExt 0xA0 e1bits,
       Hpm.Ev.writeZero 0x18, Hpm.Ev.readReg 0,
       Hpm.Ev.writeZero 0x15, Hpm.Ev.readReg 0, Hpm.Ev.readReg 0x1F, Hpm.Ev.readExt 0x20 9,
       Hpm.Ev.writeZero 0x19, Hpm.Ev.readReg 0, Hpm.Ev.readReg 0x1F,
       Hpm.Ev.writeExt 0xA0 (List.replicate 9 0),
       Hpm.Ev.writeZero 0x19, Hpm.Ev.readReg 0] ∧
    (Hpm.read_events Hpm.bdevOps devZero).2.2 =
      [Hpm.Ev.writeZero 0x14, Hpm.Ev.readReg 0, Hpm.Ev.readReg 0x1F, Hpm.Ev.readExt 0x20 9,
       Hpm.Ev.writeZero 0x18, Hpm.Ev.readReg 0, Hpm.Ev.readReg 0x1F,
       Hpm.Ev.writeExt 0xA0 (List.replicate 9 0),
       Hpm.Ev.writeZero 0x18, Hpm.Ev.readReg 0,
       Hpm.Ev.writeZero 0x15, Hpm.Ev.readReg 0, Hpm.Ev.readReg 0x1F, Hpm.Ev.readExt 0x20 9,
       Hpm.Ev.writeZero 0x19, Hpm.Ev.readReg 0, Hpm.Ev.readReg 0x1F,
       Hpm.Ev.writeExt 0xA0 (List.replicate 9 0),
       Hpm.Ev.writeZero 0x19, Hpm.Ev.readReg 0] := by
  refine ⟨collectBits_mem, ?_, ?_, by decide, ?_, ?_⟩
  · simp [Hpm.read_events, Hpm.readEventsBase, Hpm.read, Hpm.write, Hpm.get_size, Hpm.select,
      Hpm.spmiWriteZero, Hpm.spmiReadReg, Hpm.spmiReadExt, Hpm.spmiWriteExt,
      Hpm.readChunks, Hpm.writeChunks, Hpm.mbind, Hpm.mok, Hpm.mfail, Hpm.bdevOps,
      Hpm.padTake, Hpm.storeAt, devZero, Hpm.leNum, collectBits_zero]
  · simp [Hpm.read_events, Hpm.readEventsBase, Hpm.read, Hpm.write, Hpm.get_size, Hpm.select,
      Hpm.spmiWriteZero, Hpm.spmiReadReg, Hpm.spmiReadExt, Hpm.spmiWriteExt,
      Hpm.readChunks, Hpm.writeChunks, Hpm.mbind, Hpm.mok, Hpm.mfail, Hpm.bdevOps,
      Hpm.padTake, Hpm.storeAt, devEvt, e1bits, Hpm.leNum]
    rw [show (1099511627784 : Nat) = 2 ^ 40 + 8 by norm_num, collectBits_concrete]
  · simp [Hpm.read_events, Hpm.readEventsBase, Hpm.read, Hpm.write, Hpm.get_size, Hpm.select,
      Hpm.spmiWriteZero, Hpm.spmiReadReg, Hpm.spmiReadExt, Hpm.spmiWriteExt,
      Hpm.readChunks, Hpm.writeChunks, Hpm.mbind, Hpm.mok, Hpm.mfail, Hpm.bdevOps,
      Hpm.padTake, Hpm.storeAt, devEvt, e1bits, Hpm.leNum]
  · simp [Hpm.read_events, Hpm.readEventsBase, Hpm.read, Hpm.write, Hpm.get_size, Hpm.select,
      Hpm.spmiWriteZero, Hpm.spmiReadReg, Hpm.spmiReadExt, Hpm.spmiWriteExt,
      Hpm.readChunks, Hpm.writeChunks, Hpm.mbind, Hpm.mok, Hpm.mfail, Hpm.bdevOps,
      Hpm.padTake, Hpm.storeAt, devZero, Hpm.leNum]

/-! ### C1: the command/busy-poll multiplexer -/

/-- The 4-byte opcode `b"SSPS"` used by the source script. -/
def cmdSSPS : List Nat := [0x53, 0x53, 0x50, 0x53]

/-- Backing registers for the command scenario: register 8 (command) holds
4 bytes, register 9 (parameter/output) holds 1 byte. -/
def cregs : Nat → List Nat :=
  fun r => if r = 8 then [0, 0, 0, 0] else if r = 9 then [0] else []

/-- The command-scenario device with a given status script. -/
def cdev (script : List (List Nat)) : Hpm.CDev := ⟨0, cregs, script⟩

theorem cdev_write_zero (v : Nat) (s : Hpm.CDev) :
    Hpm.cdevOps.write_zero v s = (true, { s with sel := v }) := rfl

theorem cdev_read_reg (r : Nat) (s : Hpm.CDev) :
    Hpm.cdevOps.read_reg r s =
      (if r = 0 then s.sel else if r = 0x1F then (s.regs s.sel).length else 0, s) := rfl

theorem cdev_write_ext (reg : Nat) (d : List Nat) (s : Hpm.CDev) :
    Hpm.cdevOps.write_ext reg d s =
      (true, { s with
        regs := fun i => if i = s.sel then Hpm.storeAt (s.regs i) (reg - 0xA0) d
          else s.regs i }) := rfl

theorem cdev_read_ext_backing (reg n : Nat) (s : Hpm.CDev) (h : ¬s.sel = 8) :
    Hpm.cdevOps.read_ext reg n s =
      (⟨Hpm.padTake ((s.regs s.sel).drop (reg - 0x20)) n,
        Hpm.padTake_length _ _⟩, s) := by
  simp [Hpm.cdevOps, h]

theorem cdev_read_ext_cons (reg n : Nat) (regs0 : Nat → List Nat) (st : List Nat)
    (rest : List (List Nat)) :
    Hpm.cdevOps.read_ext reg n ⟨8, regs0, st :: rest⟩ =
      (⟨Hpm.padTake st n, Hpm.padTake_length st n⟩, ⟨8, regs0, rest⟩) := rfl

theorem cdev_read_ext_nil (reg n : Nat) (regs0 : Nat → List Nat) :
    Hpm.cdevOps.read_ext reg n ⟨8, regs0, []⟩ =
      (⟨Hpm.padTake [] n, Hpm.padTake_length [] n⟩, ⟨8, regs0, []⟩) := rfl

theorem pollLoop_cdev (cmd : List Nat) (hc4 : cmd.length = 4)
    (hbang : cmd ≠ Hpm.bangCMD) (hnz : cmd.any (fun b => b ≠ 0) = true) :
    ∀ (m fuel : Nat) (regs0 : Nat → List Nat) (t : List Nat) (rest : List (List Nat)),
      m < fuel → t.length = 4 → t ≠ cmd →
      Hpm.pollLoop Hpm.cdevOps cmd fuel ⟨8, regs0, List.replicate m cmd ++ t :: rest⟩ =
        ((if t.any (fun b => b ≠ 0) then
            (if t = Hpm.bangCMD then Except.error Hpm.HpmErr.InvalidCommand
             else Except.error Hpm.HpmErr.ProtocolMismatch)
          else Except.ok ()),
         (⟨8, regs0, rest⟩ : Hpm.CDev),
         List.replicate (m + 1) (Hpm.Ev.readExt 0x20 4)) := by
  intro m
  induction m with
  | zero =>
    intro fuel regs0 t rest hfuel ht4 htc
    cases fuel with
    | zero => omega
    | succ f =>
      simp only [List.replicate, List.nil_append]
      simp only [Hpm.pollLoop, Hpm.spmiReadExt, cdev_read_ext_cons, Hpm.mbind, Hpm.mok,
        Hpm.mfail, Hpm.padTake_of_length t 4 ht4,
        (show (1 : Nat) ≤ 4 ∧ (4 : Nat) ≤ 16 ∧ (0x20 : Nat) < 0x100 by decide), and_self,
        if_true]
      by_cases hz : (t.any fun b => decide (b ≠ 0)) = true
      · rw [if_pos hz, if_pos hz]
        by_cases hb : t = Hpm.bangCMD
        · rw [if_pos hb, if_pos hb]
          simp
        · rw [if_neg hb, if_neg hb, if_pos htc]
          simp
      · rw [if_neg hz, if_neg hz]
        simp
  | succ m IHm =>
    intro fuel regs0 t rest hfuel ht4 htc
    cases fuel with
    | zero => omega
    | succ f =>
      simp only [List.replicate_succ, List.cons_append]
      simp only [Hpm.pollLoop, Hpm.spmiReadExt, cdev_read_ext_cons, Hpm.mbind, Hpm.mok,
        Hpm.mfail, Hpm.padTake_of_length cmd 4 hc4,
        (show (1 : Nat) ≤ 4 ∧ (4 : Nat) ≤ 16 ∧ (0x20 : Nat) < 0x100 by decide), and_self,
        if_true]
      rw [if_pos hnz, if_neg hbang, if_neg (show ¬cmd ≠ cmd by simp)]
      rw [IHm f regs0 t rest (by omega) ht4 htc]
      simp [List.replicate_succ]

/-- Counterexample to C1: against a device whose status reads are all-zero
from the start (empty script: the status register reads as zeros),
`command` completes immediately and returns the output read — the loop
runs **while** the status is non-zero — whereas the claimed procedure
("poll **until** a non-zero value, completion = value matching the
opcode") never sees a non-zero value and cannot complete (with the same
poll budget it exhausts it instead). -/
theorem command_zero_status_counterexample :
    (Hpm.command Hpm.cdevOps 1 cmdSSPS [0] 1 (cdev [])).1 = .ok [0] ∧
    (Hpm.commandClaimed Hpm.cdevOps 1 cmdSSPS [0] 1 (cdev [])).1 =
      .error .PollExhausted := by
  constructor <;>
    simp [Hpm.command, Hpm.commandClaimed, Hpm.write, Hpm.read, Hpm.get_size, Hpm.select,
      Hpm.readChunks, Hpm.writeChunks, Hpm.pollLoop, Hpm.pollLoopClaimed,
      Hpm.spmiWriteZero, Hpm.spmiReadReg, Hpm.spmiReadExt, Hpm.spmiWriteExt,
      Hpm.mbind, Hpm.mok, Hpm.mfail, Hpm.cdevOps, Hpm.padTake, Hpm.storeAt,
      cdev, cregs, cmdSSPS, Hpm.bangCMD]


/-! CDev analogues of the register-backed read/write lemmas: away from the
scripted register 8, the command-scenario device serves and stores backing
bytes exactly like `BDev`. -/

theorem select_cdev (reg : Nat) (s : Hpm.CDev) (hreg : reg < 0x80) :
    Hpm.select Hpm.cdevOps reg s =
      (.ok (), { s with sel := reg }, [Hpm.Ev.writeZero reg, Hpm.Ev.readReg 0]) := by
  simp [Hpm.select, Hpm.spmiWriteZero, Hpm.spmiReadReg, Hpm.cdevOps, Hpm.mbind, Hpm.mok,
    Hpm.mfail, hreg]

theorem get_size_cdev (reg : Nat) (s : Hpm.CDev) (hreg : reg < 0x80)
    (h64 : (s.regs reg).length ≤ 64) :
    Hpm.get_size Hpm.cdevOps reg s =
      (.ok (s.regs reg).length, { s with sel := reg },
        [Hpm.Ev.writeZero reg, Hpm.Ev.readReg 0, Hpm.Ev.readReg 0x1F]) := by
  simp only [Hpm.get_size]
  rw [select_cdev reg s hreg]
  simp [Hpm.spmiReadReg, Hpm.cdevOps, Hpm.mbind, Hpm.mok, Hpm.mfail, h64]

theorem readChunks_cdev :
    ∀ (m size : Nat) (acc : List Nat) (s : Hpm.CDev), size - acc.length = m →
      acc.length ≤ size → size ≤ (s.regs s.sel).length → size ≤ 64 → ¬s.sel = 8 →
      acc = (s.regs s.sel).take acc.length →
      Hpm.readChunks Hpm.cdevOps size acc s =
        (.ok ((s.regs s.sel).take size), s, Hpm.readEvList acc.length size) := by
  intro m
  induction m using Nat.strong_induction_on with
  | _ m IH =>
    intro size acc s hm hlen hcap h64 h8 hacc
    rw [Hpm.readChunks.eq_def, Hpm.readEvList.eq_def]
    by_cases h : acc.length < size
    · rw [if_pos h, if_pos h]
      have hn1 : 1 ≤ min (size - acc.length) 16 := by omega
      have hn16 : min (size - acc.length) 16 ≤ 16 := by omega
      have hoff : 0x20 + acc.length < 0x100 := by omega
      rw [if_pos ⟨hn1, hn16, hoff⟩]
      have hre := cdev_read_ext_backing (0x20 + acc.length) (min (size - acc.length) 16) s h8
      simp only [hre, Nat.add_sub_cancel_left]
      rw [Hpm.padTake_of_le _ _ (by simp only [List.length_drop]; omega)]
      have key : acc ++ ((s.regs s.sel).drop acc.length).take (min (size - acc.length) 16) =
          (s.regs s.sel).take (acc.length + min (size - acc.length) 16) := by
        rw [List.take_add, ← hacc]
      rw [key]
      have hlen2 : ((s.regs s.sel).take
          (acc.length + min (size - acc.length) 16)).length =
          acc.length + min (size - acc.length) 16 := by
        simp only [List.length_take]
        omega
      rw [IH (size - (acc.length + min (size - acc.length) 16)) (by omega) size _ s
        (by rw [hlen2]) (by rw [hlen2]; omega) hcap h64 h8 (by rw [hlen2])]
      rw [hlen2]
    · rw [if_neg h, if_neg h]
      have hlen0 : acc.length = size := by omega
      rw [Hpm.mok, hacc, hlen0]

theorem writeChunks_cdev :
    ∀ (m : Nat) (data : List Nat) (written : Nat) (s : Hpm.CDev),
      data.length - written = m →
      written ≤ data.length → data.length ≤ (s.regs s.sel).length → data.length ≤ 64 →
      Hpm.writeChunks Hpm.cdevOps data written s =
        (.ok (),
          { s with regs := fun i =>
              if i = s.sel then Hpm.storeAt (s.regs s.sel) written (data.drop written)
              else s.regs i },
          Hpm.writeEvList data written) := by
  intro m
  induction m using Nat.strong_induction_on with
  | _ m IH =>
    intro data written s hm hw hcap h64
    obtain ⟨sel, regs, script⟩ := s
    change data.length ≤ (regs sel).length at hcap
    rw [Hpm.writeChunks.eq_def, Hpm.writeEvList.eq_def]
    by_cases h : written < data.length
    · rw [if_pos h, if_pos h]
      have hchl : ((data.drop written).take (min (data.length - written) 16)).length =
          min (data.length - written) 16 := by
        simp only [List.length_take, List.length_drop]
        omega
      rw [if_pos (show 1 ≤ ((data.drop written).take (min (data.length - written) 16)).length ∧
          ((data.drop written).take (min (data.length - written) 16)).length ≤ 16 ∧
          0xA0 + written < 0x100 by rw [hchl]; refine ⟨by omega, by omega, by omega⟩)]
      rw [cdev_write_ext]
      simp only [Nat.add_sub_cancel_left]
      rw [if_pos trivial]
      have hcap2 : data.length ≤
          (if sel = sel then
            Hpm.storeAt (regs sel) written
              ((data.drop written).take (min (data.length - written) 16))
          else regs sel).length := by
        rw [if_pos rfl, Hpm.storeAt_length]
        · exact hcap
        · rw [hchl]
          omega
      rw [IH (data.length - (written + min (data.length - written) 16)) (by omega) data
        (written + min (data.length - written) 16)
        { sel := sel
          regs := fun i =>
            if i = sel then
              Hpm.storeAt (regs i) written
                ((data.drop written).take (min (data.length - written) 16))
            else regs i
          script := script } rfl (by omega) hcap2 h64]
      simp only [Prod.mk.injEq]
      refine ⟨by trivial, ?_, by trivial⟩
      simp only [Hpm.CDev.mk.injEq]
      refine ⟨by trivial, ?_, by trivial⟩
      funext i
      by_cases hi : i = sel
      · subst hi
        simp only [if_pos rfl]
        exact Hpm.storeAt_storeAt (regs i) data written (min (data.length - written) 16)
          (by omega) (by omega) h hcap
      · simp [hi]
    · rw [if_neg h, if_neg h]
      have hw0 : written = data.length := by omega
      subst hw0
      rw [List.drop_length]
      have hsto : Hpm.storeAt (regs sel) data.length [] = regs sel := by
        simp [Hpm.storeAt]
      rw [hsto]
      simp only [Hpm.mok, Prod.mk.injEq]
      refine ⟨by trivial, ?_, by trivial⟩
      simp only [Hpm.CDev.mk.injEq]
      refine ⟨by trivial, ?_, by trivial⟩
      funext i
      by_cases hi : i = sel
      · subst hi
        simp
      · simp [hi]

theorem read_cdev (reg : Nat) (sizeArg : Option Nat) (s : Hpm.CDev) (hreg : reg < 0x80)
    (h8 : ¬reg = 8) (h64 : (s.regs reg).length ≤ 64)
    (hsz : sizeArg.getD (s.regs reg).length ≤ (s.regs reg).length) :
    Hpm.read Hpm.cdevOps reg sizeArg s =
      (.ok ((s.regs reg).take (sizeArg.getD (s.regs reg).length)), { s with sel := reg },
        [Hpm.Ev.writeZero reg, Hpm.Ev.readReg 0, Hpm.Ev.readReg 0x1F] ++
          Hpm.readEvList 0 (sizeArg.getD (s.regs reg).length)) := by
  obtain ⟨sel0, regs0, script0⟩ := s
  simp only [Hpm.read]
  rw [get_size_cdev reg ⟨sel0, regs0, script0⟩ hreg h64]
  simp only [Hpm.mbind]
  rw [if_pos hsz]
  rw [readChunks_cdev (sizeArg.getD (regs0 reg).length) (sizeArg.getD (regs0 reg).length)
    [] ⟨reg, regs0, script0⟩ (by simp) (by simp) hsz (le_trans hsz h64) h8 (by simp)]
  simp

theorem write_cdev (reg : Nat) (data : List Nat) (s : Hpm.CDev) (hreg : reg < 0x80)
    (h64 : (s.regs reg).length ≤ 64) (hlen : data.length ≤ (s.regs reg).length) :
    Hpm.write Hpm.cdevOps reg data s =
      (.ok (),
        { s with
          sel := reg
          regs := fun i =>
            if i = reg then data ++ (s.regs reg).drop data.length
            else s.regs i },
        ([Hpm.Ev.writeZero reg, Hpm.Ev.readReg 0, Hpm.Ev.readReg 0x1F] ++
          Hpm.writeEvList data 0) ++ [Hpm.Ev.writeZero reg, Hpm.Ev.readReg 0]) := by
  obtain ⟨sel0, regs0, script0⟩ := s
  simp only [Hpm.write]
  rw [get_size_cdev reg ⟨sel0, regs0, script0⟩ hreg h64]
  simp only [Hpm.mbind]
  rw [if_pos hlen]
  rw [writeChunks_cdev data.length data 0 ⟨reg, regs0, script0⟩ (by simp) (by simp) hlen
    (le_trans hlen h64)]
  simp only [select_cdev reg _ hreg, List.drop_zero, Hpm.mbind]
  simp only [Prod.mk.injEq]
  refine ⟨by trivial, ?_, by simp⟩
  simp only [Hpm.CDev.mk.injEq]
  refine ⟨by trivial, ?_, by trivial⟩
  funext i
  by_cases hi : i = reg
  · subst hi
    simp [Hpm.storeAt_zero]
  · simp [hi]

/-- The SPMI command events `command(cmd, data, out_size)` issues before the
busy-poll begins: `write(9, data)`, `write(8, cmd)`, `select(8)`. -/
def cmdPrefixTrace (data cmd : List Nat) : List Hpm.Ev :=
  (([Hpm.Ev.writeZero 9, Hpm.Ev.readReg 0, Hpm.Ev.readReg 0x1F] ++ Hpm.writeEvList data 0) ++
    [Hpm.Ev.writeZero 9, Hpm.Ev.readReg 0]) ++
  (([Hpm.Ev.writeZero 8, Hpm.Ev.readReg 0, Hpm.Ev.readReg 0x1F] ++ Hpm.writeEvList cmd 0) ++
    [Hpm.Ev.writeZero 8, Hpm.Ev.readReg 0]) ++
  [Hpm.Ev.writeZero 8, Hpm.Ev.readReg 0]

/-- The SPMI command events of the final `read(9, out_size)` of `command`. -/
def outReadTrace (out_size : Nat) : List Hpm.Ev :=
  [Hpm.Ev.writeZero 9, Hpm.Ev.readReg 0, Hpm.Ev.readReg 0x1F] ++ Hpm.readEvList 0 out_size

/-- C1 (amended): for every 4-byte opcode `cmd` (non-zero and distinct from
the sentinel `b"!CMD"`), payload `data` and `out_size` fitting the device's
registers 9 and 8, and every device state, `command(cmd, data, out_size)`
writes `data` to register 9 and `cmd` to register 8, selects register 8,
then busy-polls `read_ext(0x20, 4)` WHILE the status is non-zero: with `m`
statuses equal to `cmd` (still executing) followed by one decisive status,
(1) an all-zero status means completion, after which it returns the first
`out_size` bytes of register 9 (now holding `data` plus the old tail);
(2) a status equal to `b"!CMD"` fails with InvalidCommand without reading
the output register; (3) any other non-zero status different from `cmd`
fails with ProtocolMismatch.  In every case the poll issues exactly `m + 1`
`read_ext(0x20, 4)` commands after the fixed write/select prefix. -/
theorem command_busy_poll (cmd data : List Nat) (out_size : Nat)
    (regs0 : Nat → List Nat) (m fuel : Nat)
    (hfuel : m < fuel) (hc4 : cmd.length = 4) (hbang : cmd ≠ Hpm.bangCMD)
    (hnz : cmd.any (fun b => b ≠ 0) = true)
    (h9cap : (regs0 9).length ≤ 64) (hdata : data.length ≤ (regs0 9).length)
    (hout : out_size ≤ (regs0 9).length)
    (h8cap : 4 ≤ (regs0 8).length) (h8cap64 : (regs0 8).length ≤ 64) :
    (∀ rest : List (List Nat),
      (Hpm.command Hpm.cdevOps fuel cmd data out_size
          ⟨0, regs0, List.replicate m cmd ++ [0, 0, 0, 0] :: rest⟩).1 =
        .ok ((data ++ (regs0 9).drop data.length).take out_size) ∧
      (Hpm.command Hpm.cdevOps fuel cmd data out_size
          ⟨0, regs0, List.replicate m cmd ++ [0, 0, 0, 0] :: rest⟩).2.2 =
        cmdPrefixTrace data cmd ++ List.replicate (m + 1) (Hpm.Ev.readExt 0x20 4) ++
          outReadTrace out_size) ∧
    (∀ rest : List (List Nat),
      (Hpm.command Hpm.cdevOps fuel cmd data out_size
          ⟨0, regs0, List.replicate m cmd ++ Hpm.bangCMD :: rest⟩).1 =
        .error .InvalidCommand ∧
      (Hpm.command Hpm.cdevOps fuel cmd data out_size
          ⟨0, regs0, List.replicate m cmd ++ Hpm.bangCMD :: rest⟩).2.2 =
        cmdPrefixTrace data cmd ++ List.replicate (m + 1) (Hpm.Ev.readExt 0x20 4)) ∧
    (∀ (t : List Nat) (rest : List (List Nat)),
      t.length = 4 → ¬t = cmd → ¬t = Hpm.bangCMD → t.any (fun b => b ≠ 0) = true →
      (Hpm.command Hpm.cdevOps fuel cmd data out_size
          ⟨0, regs0, List.replicate m cmd ++ t :: rest⟩).1 =
        .error .ProtocolMismatch ∧
      (Hpm.command Hpm.cdevOps fuel cmd data out_size
          ⟨0, regs0, List.replicate m cmd ++ t :: rest⟩).2.2 =
        cmdPrefixTrace data cmd ++ List.replicate (m + 1) (Hpm.Ev.readExt 0x20 4)) := by
  have hpoll := pollLoop_cdev cmd hc4 hbang hnz m fuel
  have h0c : ¬([0, 0, 0, 0] : List Nat) = cmd := by
    intro h
    rw [← h] at hnz
    exact absurd hnz (by decide)
  have hbc : ¬Hpm.bangCMD = cmd := fun h => hbang h.symm
  have h64n : data.length + ((regs0 9).length - data.length) ≤ 64 := by omega
  have houtn : out_size ≤ data.length + ((regs0 9).length - data.length) := by omega
  refine ⟨fun rest => ?_, fun rest => ?_, fun t rest ht4 htc htb htnz => ?_⟩
  · simp only [Hpm.command]
    rw [write_cdev 9 data ⟨0, regs0, List.replicate m cmd ++ [0, 0, 0, 0] :: rest⟩
      (by norm_num) h9cap hdata]
    simp [write_cdev, select_cdev, Hpm.mbind, hc4,
      (show (9 : Nat) < 0x80 by norm_num), (show (8 : Nat) < 0x80 by norm_num),
      h8cap, h8cap64]
    rw [hpoll _ [0, 0, 0, 0] rest hfuel (by decide) h0c]
    simp [read_cdev, Hpm.mbind, cmdPrefixTrace, outReadTrace,
      (show (9 : Nat) < 0x80 by norm_num), (show ¬(9 : Nat) = 8 by norm_num),
      h64n, houtn, List.replicate_succ]
  · simp only [Hpm.command]
    rw [write_cdev 9 data ⟨0, regs0, List.replicate m cmd ++ Hpm.bangCMD :: rest⟩
      (by norm_num) h9cap hdata]
    simp [write_cdev, select_cdev, Hpm.mbind, hc4,
      (show (9 : Nat) < 0x80 by norm_num), (show (8 : Nat) < 0x80 by norm_num),
      h8cap, h8cap64]
    rw [hpoll _ Hpm.bangCMD rest hfuel (by decide) hbc]
    simp [Hpm.mbind, cmdPrefixTrace, Hpm.bangCMD, List.replicate_succ]
  · simp only [Hpm.command]
    rw [write_cdev 9 data ⟨0, regs0, List.replicate m cmd ++ t :: rest⟩
      (by norm_num) h9cap hdata]
    simp [write_cdev, select_cdev, Hpm.mbind, hc4,
      (show (9 : Nat) < 0x80 by norm_num), (show (8 : Nat) < 0x80 by norm_num),
      h8cap, h8cap64]
    rw [hpoll _ t rest hfuel ht4 htc]
    have htnzp : ∃ x ∈ t, ¬x = 0 := by simpa using htnz
    simp [Hpm.mbind, cmdPrefixTrace, htnz, htnzp, htb, List.replicate_succ]

/-- Witness for C1's theorem: the source script's own call
`command(b"SSPS", b"\x00", out_size)` against the command device with two
busy statuses followed by an all-zero status completes with the written
parameter byte. -/
theorem command_busy_poll_witness :
    2 < 5 ∧
    (Hpm.command Hpm.cdevOps 5 cmdSSPS [0] 1
        ⟨0, cregs, List.replicate 2 cmdSSPS ++ [0, 0, 0, 0] :: []⟩).1 = .ok [0] := by
  refine ⟨by decide, ?_⟩
  have h := (command_busy_poll cmdSSPS [0] 1 cregs 2 5 (by decide) (by decide)
    (by decide) (by decide) (by decide) (by decide) (by decide) (by decide) (by decide)).1 []
  rw [h.1]
  simp [cregs]
